import Mathlib

/-!
# Verification of the `audiofile` wav/riff library against its specification

Shallow embedding of the Go sources (`riff` container reader/writer, `wav`
format-descriptor codec, sample decode/encode operations and the sample
conversion matrix) and proofs settling the claims C1-C10.

Modelling conventions:
* Bytes and unsigned machine integers are `Nat`; byte streams are `List Nat`
  consumed from the front.  Little-endian fields are assembled exactly as the
  Go code does (`binary.LittleEndian`).
* `int16`/`int32` values are `Int` together with explicit two's-complement
  wrapping (`wrap16`/`wrap32`) at every Go conversion or overflowing shift.
  Go's arithmetic right shift `>> k` on a signed value is floor division by
  `2^k`, written `Int.fdiv`; Go's `byte(x)` keeps the low 8 bits (`toByte`);
  Go's float-to-int conversion truncates toward zero (`ratTrunc`).
* IEEE-754 binary32/binary64 values are modelled as exact rationals with
  unbounded exponent: every arithmetic operation of the source is an exact
  rational operation followed by `rnd p` (round to nearest, ties to even, at
  `p` significant bits, `p = 24` resp. `53`).  All values reached by the
  claims lie far inside the normal range of both formats, so exponent
  clamping and subnormals never matter.  `Rat.add` and friends are
  `@[irreducible]`, so the embedding uses its own executable wrappers
  (`qAdd` …) built on `Rat.divInt`.
* Go `panic` (and a call through a `nil` function value) is a distinct
  abnormal outcome, modelled by explicit `panicked` constructors: it aborts
  the process and is not an error return.
* `io.ReadFull` on a list-backed stream: reading `n` bytes succeeds iff the
  stream holds at least `n`; with an empty stream it reports the clean
  end-of-stream (`io.EOF`), and with a non-empty but short stream the
  distinct truncation error (`io.ErrUnexpectedEOF`).
-/

/-! ## Forcing helpers

The kernel evaluates applications call-by-name; matching on a `Nat` or `Int`
argument forces it to a literal once before substituting, which keeps the
executable definitions evaluable in reasonable time.  `fN n f = f n` and
`fZ i f = f i` definitionally (by cases), so these do not change any value. -/

def fN {α : Type} (n : Nat) (f : Nat → α) : α :=
  match n with
  | 0 => f 0
  | k+1 => f (k+1)

theorem fN_eq {α : Type} (n : Nat) (f : Nat → α) : fN n f = f n := by
  cases n <;> rfl

def fZ {α : Type} (i : Int) (f : Int → α) : α :=
  match i with
  | .ofNat m => fN m fun m => f (.ofNat m)
  | .negSucc m => fN m fun m => f (.negSucc m)

theorem fZ_eq {α : Type} (i : Int) (f : Int → α) : fZ i f = f i := by
  cases i <;> simp [fZ, fN_eq]

/-! ## Base-2 logarithm

Fuel-based floor of `log2`, written with a bare `Nat.rec` so that the kernel
can evaluate it lazily (the equation compiler's `brecOn` scheme forces the
whole fuel).  `natLog2` uses fuel `1000`, enough for every number below
`2 ^ 1000`. -/

def log2F (fuel : Nat) : Nat → Nat :=
  Nat.rec (motive := fun _ => Nat → Nat)
    (fun _ => 0)
    (fun _ ih n => if n ≤ 1 then 0 else ih (n / 2) + 1)
    fuel

theorem log2F_zero (n : Nat) : log2F 0 n = 0 := rfl

theorem log2F_succ (fuel n : Nat) :
    log2F (fuel + 1) n = if n ≤ 1 then 0 else log2F fuel (n / 2) + 1 := rfl

def natLog2 (n : Nat) : Nat := log2F 1000 n

/-- Correctness of the fuel-based logarithm on inputs below `2 ^ fuel`. -/
theorem log2F_spec (fuel : Nat) : ∀ n : Nat, 1 ≤ n → n < 2 ^ fuel →
    2 ^ log2F fuel n ≤ n ∧ n < 2 ^ (log2F fuel n + 1) := by
  induction fuel with
  | zero => intro n h1 h2; omega
  | succ f ih =>
    intro n h1 h2
    rw [log2F_succ]
    by_cases hn : n ≤ 1
    · simp [hn]; omega
    · simp only [if_neg hn]
      have hhalf : 1 ≤ n / 2 := by omega
      have hlt : n / 2 < 2 ^ f := by
        rw [pow_succ] at h2; omega
      obtain ⟨l, r⟩ := ih (n / 2) hhalf hlt
      constructor
      · rw [pow_succ]; omega
      · rw [pow_succ, pow_succ] at *; omega

theorem natLog2_spec (n : Nat) (h1 : 1 ≤ n) (h2 : n < 2 ^ 1000) :
    2 ^ natLog2 n ≤ n ∧ n < 2 ^ (natLog2 n + 1) :=
  log2F_spec 1000 n h1 h2

/-! ## Machine-integer helpers (Go semantics) -/

/-- Two's complement wrap of an `int16` result. -/
def wrap16 (i : Int) : Int := (i + 32768) % 65536 - 32768

/-- Two's complement wrap of an `int32` result. -/
def wrap32 (i : Int) : Int := (i + 2147483648) % 4294967296 - 2147483648

/-- Go's conversion to `byte` keeps the low 8 bits. -/
def toByte (i : Int) : Nat := (i % 256).toNat

/-- Go's float-to-integer conversion truncates toward zero. -/
def ratTrunc : ℚ → Int
  | ⟨n, d, _, _⟩ => n.tdiv d

/-! ## Exact rational arithmetic (kernel-evaluable wrappers) -/

def qAdd : ℚ → ℚ → ℚ
  | ⟨an, ad, _, _⟩, ⟨bn, bd, _, _⟩ => Rat.divInt (an * bd + bn * ad) (ad * bd)

def qSub : ℚ → ℚ → ℚ
  | ⟨an, ad, _, _⟩, ⟨bn, bd, _, _⟩ => Rat.divInt (an * bd - bn * ad) (ad * bd)

def qMul : ℚ → ℚ → ℚ
  | ⟨an, ad, _, _⟩, ⟨bn, bd, _, _⟩ => Rat.divInt (an * bn) (ad * bd)

def qDiv : ℚ → ℚ → ℚ
  | ⟨an, ad, _, _⟩, ⟨bn, bd, _, _⟩ => Rat.divInt (an * bd) (ad * bn)

theorem qAdd_eq (a b : ℚ) : qAdd a b = a + b := by
  rcases a with ⟨an, ad, h1, h2⟩; rcases b with ⟨bn, bd, h3, h4⟩
  rw [qAdd, Rat.add_def', Rat.mkRat_eq_divInt]
  push_cast
  rfl

theorem qSub_eq (a b : ℚ) : qSub a b = a - b := by
  rcases a with ⟨an, ad, h1, h2⟩; rcases b with ⟨bn, bd, h3, h4⟩
  rw [qSub, Rat.sub_def', Rat.mkRat_eq_divInt]
  push_cast
  rfl

theorem qMul_eq (a b : ℚ) : qMul a b = a * b := by
  rcases a with ⟨an, ad, h1, h2⟩; rcases b with ⟨bn, bd, h3, h4⟩
  rw [qMul, Rat.mul_def, Rat.normalize_eq_mkRat, Rat.mkRat_eq_divInt]
  push_cast
  rfl

theorem qDiv_eq (a b : ℚ) : qDiv a b = a / b := by
  rcases a with ⟨an, ad, h1, h2⟩; rcases b with ⟨bn, bd, h3, h4⟩
  rw [qDiv, Rat.div_def']

/-! ## Round to nearest, ties to even

`rndN p n d` rounds the positive rational `n / d` to `p` significant bits.
It scales `n / d` by the power of two `2 ^ (u - V)` that brings it into
`[2 ^ (p-1), 2 ^ p)`, takes floor and remainder, and applies the
nearest/ties-to-even selection.  `rnd` extends it to all of `ℚ` by sign.
Its characterising properties are proved below (`rndN_spec`), not assumed. -/

def rndN (p n d : Nat) : ℚ :=
  fN n fun n =>
  fN d fun d =>
  fN (natLog2 n + p + 2) fun V =>
  fN (d <<< (p - 1 + V)) fun B =>
  fN ((B + n - 1) / n) fun q =>
  fN (if q ≤ 1 then 0 else natLog2 (q - 1) + 1) fun u =>
  fN (d <<< V) fun D =>
  fN (n <<< u) fun N =>
  fN (N / D) fun m0 =>
  fN (N % D) fun r =>
  fN (if D < 2 * r then m0 + 1 else if 2 * r < D then m0
      else if m0 % 2 = 0 then m0 else m0 + 1) fun m =>
  if u ≤ V then Rat.divInt ((m <<< (V - u) : Nat) : Int) 1
  else Rat.divInt (m : Int) ((1 <<< (u - V) : Nat) : Int)

def rnd (p : Nat) (x : ℚ) : ℚ :=
  match x with
  | ⟨.ofNat 0, _, _, _⟩ => ⟨0, 1, one_ne_zero, Nat.coprime_one_right 0⟩
  | ⟨.ofNat (m+1), d, _, _⟩ => rndN p (m+1) d
  | ⟨.negSucc m, d, _, _⟩ => Rat.neg (rndN p (m+1) d)

/-! ## IEEE-754 float model: exact rational operation + rounding -/

def f32add (a b : ℚ) : ℚ := rnd 24 (qAdd a b)
def f32sub (a b : ℚ) : ℚ := rnd 24 (qSub a b)
def f32mul (a b : ℚ) : ℚ := rnd 24 (qMul a b)
def f32div (a b : ℚ) : ℚ := rnd 24 (qDiv a b)
def f64add (a b : ℚ) : ℚ := rnd 53 (qAdd a b)
def f64sub (a b : ℚ) : ℚ := rnd 53 (qSub a b)
def f64mul (a b : ℚ) : ℚ := rnd 53 (qMul a b)

/-! ## Sample conversion matrix

Embedded from the sample-conversion part of the `wav` package, keeping the
Go names.  `POut` is the outcome of a call that may `panic`: the functions
with no defined formula are `panic("not implemented")` in the source and
yield `.panicked`, not a value and not an error return. -/

inductive POut (α : Type) : Type
  | ok (a : α)
  | panicked
  deriving DecidableEq, Repr

def from8PCMTo16PCM (b : Nat) : Int := wrap16 (((b : Int) - 128) * 256)

def from8PCMTo24PCM (b : Nat) : Int := wrap32 (((b : Int) - 128) * 65536)

/-- `float32(b)*div - 1` with `div = 1.0/128` (exact as a float32 constant). -/
def from8PCMToFloat32 (b : Nat) : ℚ := f32sub (f32mul (b : ℚ) (Rat.divInt 1 128)) 1

def from8PCMToFloat64 (b : Nat) : ℚ := f64sub (f64mul (b : ℚ) (Rat.divInt 1 128)) 1

/-- `byte((i >> 8) + 128)`: arithmetic shift, then wrap to the low byte. -/
def from16PCMTo8PCM (i : Int) : Nat := toByte (i.fdiv 256 + 128)

def from16PCMTo24PCM (i : Int) : Int := wrap32 (i * 256)

/-- `float32(i) / float32(maxInt16)`: one rounded division by 32767. -/
def from16PCMToFloat32 (i : Int) : ℚ := f32div (i : ℚ) (Rat.divInt 32767 1)

/-- `from16PCMToFloat64` is `panic("not implemented")` in the source. -/
def from16PCMToFloat64 (_i : Int) : POut ℚ := .panicked

def from24PCMTo8PCM (i : Int) : Nat := toByte (i.fdiv 65536 + 128)

def from24PCMTo16PCM (i : Int) : Int := wrap16 (i.fdiv 256)

/-- `from24PCMToFloat32` is `panic("not implemented")` in the source. -/
def from24PCMToFloat32 (_i : Int) : POut ℚ := .panicked

/-- `from24PCMToFloat64` is `panic("not implemented")` in the source. -/
def from24PCMToFloat64 (_i : Int) : POut ℚ := .panicked

/-- `byte((f + 1) * 128)`: rounded add, rounded multiply, truncation. -/
def fromFloat32To8PCM (f : ℚ) : Nat := toByte (ratTrunc (f32mul (f32add f 1) 128))

/-- `int16(f * float32(maxInt16))`: rounded multiply, truncation. -/
def fromFloat32To16PCM (f : ℚ) : Int := wrap16 (ratTrunc (f32mul f (Rat.divInt 32767 1)))

/-- `fromFloat32To24PCM` is `panic("not implemented")` in the source. -/
def fromFloat32To24PCM (_f : ℚ) : POut Int := .panicked

/-- `float32 → float64` is the exact widening cast. -/
def fromFloat32ToFloat64 (f : ℚ) : ℚ := f

def fromFloat64To8PCM (f : ℚ) : Nat := toByte (ratTrunc (f64mul (f64add f 1) 128))

/-- `fromFloat64To16PCM` is `panic("not implemented")` in the source. -/
def fromFloat64To16PCM (_f : ℚ) : POut Int := .panicked

/-- `fromFloat64To24PCM` is `panic("not implemented")` in the source. -/
def fromFloat64To24PCM (_f : ℚ) : POut Int := .panicked

/-- `float64 → float32` narrows by rounding to 24 significant bits. -/
def fromFloat64To32PCM (f : ℚ) : ℚ := rnd 24 f

/-! ## Little-endian field helpers -/

def le16at (bs : List Nat) (i : Nat) : Nat := bs.getD i 0 + 256 * bs.getD (i+1) 0

def le32at (bs : List Nat) (i : Nat) : Nat := le16at bs i + 65536 * le16at bs (i+2)

def le32 (n : Nat) : List Nat :=
  [n % 256, n / 256 % 256, n / 65536 % 256, n / 16777216 % 256]

/-! ## 24-bit PCM iterator (`as24PCM`)

The source checks the buffer length is a multiple of 3 and then combines
each little-endian 3-byte group with
`i := lo & (mid << 8) & (hi << 16)` — a bitwise AND of the shifted bytes,
exactly as written in the Go code. -/

inductive SizeErr : Type
  | badLength (bytesPerSample got : Nat)
  deriving DecidableEq, Repr

/-- `checkSize` from the source: the length must divide evenly. -/
def checkSize (bytesPerSample : Nat) (b : List Nat) : Option SizeErr :=
  if b.length % bytesPerSample ≠ 0 then some (.badLength bytesPerSample b.length)
  else none

/-- The three bytes are non-negative and below `2 ^ 24`, so the `int32`
bitwise AND of the source coincides with the AND on `Nat`. -/
def pcm24Groups : List Nat → List Int
  | lo :: mid :: hi :: rest =>
      ((lo &&& (mid <<< 8) &&& (hi <<< 16) : Nat) : Int) :: pcm24Groups rest
  | _ => []

def as24PCM (b : List Nat) : Except SizeErr (List Int) :=
  match checkSize 3 b with
  | some e => .error e
  | none => .ok (pcm24Groups b)

/-! ## `io.ReadFull` on a list-backed stream -/

inductive RdErr : Type
  | eof            -- io.EOF: zero bytes were available
  | unexpectedEOF  -- io.ErrUnexpectedEOF: the stream ended after a partial read
  deriving DecidableEq, Repr

def readFull (n : Nat) (s : List Nat) : Except RdErr (List Nat × List Nat) :=
  if n ≤ s.length then .ok (s.take n, s.drop n)
  else if s.length = 0 then .error .eof
  else .error .unexpectedEOF

/-! ## riff container reader (`riff.NewReader` / `Reader.ReadChunk`) -/

inductive RiffErr : Type
  | eof                        -- io.EOF propagated: the clean end-of-container signal
  | unexpectedEOF              -- truncation inside a chunk header
  | missingPad                 -- "unexpected EOF: missing pad byte"
  | badSignature (found : List Nat)
  | formTruncated              -- short read of the 4-byte form tag
  deriving DecidableEq, Repr

/-- `readChunkHeader`: a 4-byte identifier then a 4-byte little-endian size.
Both reads are `io.ReadFull`, whose errors propagate unchanged — in
particular end-of-stream with the identifier fully read but zero size bytes
available surfaces as the clean `io.EOF`. -/
def readChunkHeader (s : List Nat) : Except RiffErr ((List Nat × Nat) × List Nat) :=
  match readFull 4 s with
  | .error .eof => .error .eof
  | .error .unexpectedEOF => .error .unexpectedEOF
  | .ok (idb, s1) =>
    match readFull 4 s1 with
    | .error .eof => .error .eof
    | .error .unexpectedEOF => .error .unexpectedEOF
    | .ok (szb, s2) => .ok ((idb, le32at szb 0), s2)

/-- Reader state: the remaining stream, the unread byte count of the current
chunk (drained on the next `ReadChunk`), and the pad flag of the current
chunk's header (`r.hdr.pad`).  The `Reader.pad` field set from the outer
RIFF header is never consulted by the source, and `r.hdr` starts at its zero
value, so a fresh reader carries `pad = false`. -/
structure RState : Type where
  s : List Nat
  rem : Nat
  pad : Bool
  deriving DecidableEq, Repr

def riffNewReader (s : List Nat) : Except RiffErr (List Nat × RState) :=
  match readChunkHeader s with
  | .error e => .error e
  | .ok ((idb, _), s1) =>
    if idb ≠ [82, 73, 70, 70] then .error (.badSignature idb)
    else match readFull 4 s1 with
      | .error _ => .error .formTruncated
      | .ok (form, s2) => .ok (form, ⟨s2, 0, false⟩)

def riffReadChunkCore (s : List Nat) : Except RiffErr (List Nat × Nat) × RState :=
  match readChunkHeader s with
  | .error e => (.error e, ⟨[], 0, false⟩)
  | .ok ((idb, size), s2) => (.ok (idb, size), ⟨s2, size, size % 2 == 1⟩)

/-- `Reader.ReadChunk`: drain the unread rest of the previous chunk, consume
the single pad byte if the previous size was odd (a bare one-byte `Read`,
whose end-of-stream is the distinct "missing pad byte" error), then read the
next header. -/
def riffReadChunk (r : RState) : Except RiffErr (List Nat × Nat) × RState :=
  match r.pad, r.s.drop r.rem with
  | true, [] => (.error .missingPad, ⟨[], 0, false⟩)
  | true, _ :: t => riffReadChunkCore t
  | false, s1 => riffReadChunkCore s1

/-- `io.ReadAll` on the chunk's bounded content stream: yields
`min size available` bytes and never fails. -/
def readChunkData (r : RState) : List Nat × RState :=
  (r.s.take r.rem, ⟨r.s.drop r.rem, 0, r.pad⟩)

/-- Test-style driver: read every chunk (identifier, declared size, full
payload) until the clean end-of-container signal or an error. -/
def readAllChunks : Nat → RState → List (List Nat × Nat × List Nat) × Option RiffErr
  | 0, _ => ([], some .unexpectedEOF)
  | fuel+1, r =>
    match riffReadChunk r with
    | (.error .eof, _) => ([], none)
    | (.error e, _) => ([], some e)
    | (.ok (idb, size), r') =>
      let (data, r2) := readChunkData r'
      let (rest, term) := readAllChunks fuel r2
      ((idb, size, data) :: rest, term)

/-! ## riff container writer (`riff.NewWriter`, `NewChunk`, `chunkWriter`)

The sink is a write-seeker: a buffer plus a position; writing overwrites in
place and extends at the end, exactly like a file. -/

structure WS : Type where
  buf : List Nat
  pos : Nat
  deriving DecidableEq, Repr

def wsWrite (w : WS) (p : List Nat) : WS :=
  ⟨w.buf.take w.pos ++ p ++ w.buf.drop (w.pos + p.length), w.pos + p.length⟩

def wsSeekCur (w : WS) (off : Int) : WS := ⟨w.buf, ((w.pos : Int) + off).toNat⟩

def wsSeekStart (w : WS) (off : Nat) : WS := ⟨w.buf, off⟩

def wsSeekEnd (w : WS) : WS := ⟨w.buf, w.buf.length⟩

inductive WrErr : Type
  | badForm (form : List Nat)
  | badIdentifier (id : List Nat)
  deriving DecidableEq, Repr

/-- riff writer state: the sink and the running total (`written`), which
starts at 4 because the form tag counts. -/
structure RW : Type where
  ws : WS
  written : Nat
  deriving DecidableEq, Repr

def riffNewWriter (ws : WS) (form : List Nat) : Except WrErr RW :=
  if form.length ≠ 4 then .error (.badForm form)
  else .ok ⟨wsWrite ws ([82, 73, 70, 70] ++ [0, 0, 0, 0] ++ form), 4⟩

/-- `Writer.NewChunk`: the identifier and a zero placeholder size, both
through `w.write` which adds to the running total.  Returns the byte count
of the fresh chunk writer (zero). -/
def riffNewChunk (w : RW) (idb : List Nat) : Except WrErr (RW × Nat) :=
  if idb.length ≠ 4 then .error (.badIdentifier idb)
  else .ok (⟨wsWrite (wsWrite w.ws idb) (le32 0), w.written + 8⟩, 0)

/-- `chunkWriter.Write` writes directly to the sink (not via `w.write`) and
adds to the chunk writer's own count. -/
def chunkWrite (w : RW) (cw : Nat) (p : List Nat) : RW × Nat :=
  (⟨wsWrite w.ws p, w.written⟩, cw + p.length)

/-- `chunkWriter.Close`: seek back `written + 4` bytes, overwrite the size
field, seek to the end, fold the count into the writer's total.  No pad
byte is written (the source has `TODO: write the pad byte`). -/
def chunkClose (w : RW) (cw : Nat) : RW :=
  ⟨wsSeekEnd (wsWrite (wsSeekCur w.ws (-((cw : Int) + 4))) (le32 cw)), w.written + cw⟩

/-- `Writer.Close`: seek to offset 4 and write the running total. -/
def riffWriterClose (w : RW) : WS :=
  wsWrite (wsSeekStart w.ws 4) (le32 w.written)

/-- Driver: open a writer, write each chunk through the
`NewChunk`/`Write`/`Close` protocol, close the writer, return the bytes. -/
def riffWriteChunks (w : RW) : List (List Nat × List Nat) → Except WrErr RW
  | [] => .ok w
  | (idb, payload) :: rest =>
    match riffNewChunk w idb with
    | .error e => .error e
    | .ok (w1, cw) =>
      let (w2, cw2) := chunkWrite w1 cw payload
      riffWriteChunks (chunkClose w2 cw2) rest

def riffWriteFile (form : List Nat) (chunks : List (List Nat × List Nat)) :
    Except WrErr (List Nat) :=
  match riffNewWriter ⟨[], 0⟩ form with
  | .error e => .error e
  | .ok w =>
    match riffWriteChunks w chunks with
    | .error e => .error e
    | .ok w1 => .ok (riffWriterClose w1).buf

/-! ## wav format constants and the fmt chunk codec (`readFmtChunk`) -/

def PCM : Nat := 1
def IEEEFloat : Nat := 3
def ALaw : Nat := 6
def MuLaw : Nat := 7
def Extensible : Nat := 65534

structure FmtChunk : Type where
  format : Nat
  channels : Nat
  sampleRate : Nat
  dataRate : Nat
  blockAlign : Nat
  bitsPerSample : Nat
  validBitsPerSample : Nat
  channelMask : Nat
  subFormat : Nat
  deriving DecidableEq, Repr

def fmtMagic : List Nat := [0, 0, 0, 0, 16, 0, 128, 0, 0, 170, 0, 56, 155, 113]

inductive FmtErr : Type
  | truncated            -- io.EOF (converted to "unexpected EOF") or io.ErrUnexpectedEOF
  | badCbSize            -- "expect cbSize 0, got ..."
  | badBits              -- "expect 8 bits per sample, got ..."
  | badExtSize           -- "expect cbSize 22, got ..."
  | subformatExtensible  -- "invalid subformat Extensible"
  | subformatUnknown     -- "invalid/unknown subformat ..."
  | badMagic             -- "bad magic string ... in subformat"
  | unknownFormat        -- "unknown wav format ..."
  deriving DecidableEq, Repr

/-- `readFmtChunk`: 16 mandatory little-endian bytes, then 0, 2 or 24 more
depending on the encoding tag, with the source's validation in the source's
order.  Any short `io.ReadFull` is a truncation error (the deferred handler
turns a clean `io.EOF` into "unexpected EOF"). -/
def readFmtChunk (bs : List Nat) : Except FmtErr FmtChunk :=
  match readFull 16 bs with
  | .error _ => .error .truncated
  | .ok (hdr, rest) =>
    fN (le16at hdr 0) fun format =>
    let base : FmtChunk :=
      ⟨format, le16at hdr 2, le32at hdr 4, le32at hdr 8, le16at hdr 12, le16at hdr 14, 0, 0, 0⟩
    if format = PCM then .ok base
    else if format = ALaw ∨ format = MuLaw then
      match readFull 2 rest with
      | .error _ => .error .truncated
      | .ok (cb, _) =>
        if le16at cb 0 ≠ 0 then .error .badCbSize
        else if base.bitsPerSample ≠ 8 then .error .badBits
        else .ok base
    else if format = Extensible then
      match readFull 24 rest with
      | .error _ => .error .truncated
      | .ok (ext, _) =>
        if le16at ext 0 ≠ 22 then .error .badExtSize
        else
          fN (le16at ext 8) fun sub =>
          if sub = Extensible then .error .subformatExtensible
          else if ¬(sub = PCM ∨ sub = ALaw ∨ sub = MuLaw ∨ sub = IEEEFloat) then
            .error .subformatUnknown
          else if ext.drop 10 ≠ fmtMagic then .error .badMagic
          else .ok { base with validBitsPerSample := le16at ext 2,
                               channelMask := le32at ext 4, subFormat := sub }
    else .error .unknownFormat

/-! ## wav stream reader: sample decode operations

`ReaderSt` carries the parsed descriptor and the unread part of the data
chunk.  `readInto` is the generic decode loop; the per-operation dispatch
(`read8PCM` …) selects the `nextSample` function exactly as the source's
switches do.  A dispatch value of `none` models the `nil` function value the
source leaves behind when a `switch` has no matching branch and no default:
calling it panics. -/

def rFormat (f : FmtChunk) : Nat := if f.format = Extensible then f.subFormat else f.format

structure ReaderSt : Type where
  fmt : FmtChunk
  stream : List Nat
  deriving DecidableEq, Repr

inductive RunErr : Type
  | wrongChannels (got want : Nat)  -- "wrong number of channels"
  | eof                             -- readN: io.EOF (no bytes at all)
  | truncated                       -- readN: io.ErrUnexpectedEOF
  | internal (left total : Nat)     -- "internal error: could use all the bytes"
  | unsupported                     -- "... not implemented" (explicit error return)
  deriving DecidableEq, Repr

inductive RunRes (α : Type) : Type
  | ok (data : List (List α)) (n : Nat)
  | error (e : RunErr)
  | panicked
  deriving DecidableEq, Repr

def nextByte (raw : List Nat) : POut (Nat × List Nat) :=
  match raw with
  | [] => .panicked
  | b :: t => .ok (b, t)

def nextInt16 (raw : List Nat) : POut (Int × List Nat) :=
  match raw with
  | a :: b :: t => .ok (wrap16 ((a + 256 * b : Nat) : Int), t)
  | _ => .panicked

/-- Exact value of a finite binary32 bit pattern (sign, biased exponent,
mantissa; subnormals included; the claims never reach NaN or infinity). -/
def f32OfBits (bits : Nat) : ℚ :=
  fN (bits / 2147483648 % 2) fun s =>
  fN (bits / 8388608 % 256) fun e =>
  fN (bits % 8388608) fun m =>
  let mag : ℚ :=
    if e = 0 then Rat.divInt (m : Int) ((2 ^ 149 : Nat) : Int)
    else if e = 255 then 0
    else Rat.divInt ((8388608 + m : Nat) : Int) ((2 ^ (150 - e) : Nat) : Int)
  if s = 1 then Rat.neg mag else mag

/-- Exact value of a finite binary64 bit pattern. -/
def f64OfBits (bits : Nat) : ℚ :=
  fN (bits / 9223372036854775808 % 2) fun s =>
  fN (bits / 4503599627370496 % 2048) fun e =>
  fN (bits % 4503599627370496) fun m =>
  let mag : ℚ :=
    if e = 0 then Rat.divInt (m : Int) ((2 ^ 1074 : Nat) : Int)
    else if e = 2047 then 0
    else Rat.divInt ((4503599627370496 + m : Nat) : Int) ((2 ^ (1075 - e) : Nat) : Int)
  if s = 1 then Rat.neg mag else mag

def le64at (bs : List Nat) (i : Nat) : Nat := le32at bs i + 4294967296 * le32at bs (i + 4)

/-- `nextFloat32` decodes the first four bytes but returns `raw[:4]` — the
first four bytes again — instead of the documented `raw[4:]`. -/
def nextFloat32 (raw : List Nat) : POut (ℚ × List Nat) :=
  if raw.length < 4 then .panicked
  else .ok (f32OfBits (le32at raw 0), raw.take 4)

/-- `nextFloat64` likewise returns `raw[:8]` instead of `raw[8:]`. -/
def nextFloat64 (raw : List Nat) : POut (ℚ × List Nat) :=
  if raw.length < 8 then .panicked
  else .ok (f64OfBits (le64at raw 0), raw.take 8)

def int16ToByte (i : Int) : Nat := toByte (i.fdiv 256 + 128)

def runSteps {α : Type} (next : Option (List Nat → POut (α × List Nat))) :
    Nat → List Nat → POut (List α × List Nat)
  | 0, raw => .ok ([], raw)
  | k+1, raw =>
    match next with
    | none => .panicked
    | some nf =>
      match nf raw with
      | .panicked => .panicked
      | .ok (a, raw') =>
        match runSteps next k raw' with
        | .panicked => .panicked
        | .ok (as, raw2) => .ok (a :: as, raw2)

/-- De-interleave the flat decode order (frame-major, channel 0 first):
channel `c` receives the samples at flat positions `j * channels + c`. -/
def splitChannels {α : Type} [Inhabited α] (numBufs bufLen : Nat) (flat : List α) :
    List (List α) :=
  (List.range numBufs).map fun c =>
    (List.range bufLen).map fun j => flat.getD (j * numBufs + c) default

/-- `readInto`: channel-count check, `nSamples := len(data[0])` (an
out-of-range fault on an empty buffer list), one `readN` of
`nSamples * blockAlign` bytes consuming the stream, the decode loop, and the
all-bytes-consumed check.  All destination buffers share the length of the
first one, as in every use in the repository (`makeSlices`). -/
def readInto {α : Type} [Inhabited α] (numBufs bufLen : Nat) (r : ReaderSt)
    (next : Option (List Nat → POut (α × List Nat))) : RunRes α × List Nat :=
  if numBufs ≠ r.fmt.channels then
    (.error (.wrongChannels numBufs r.fmt.channels), r.stream)
  else if numBufs = 0 then (.panicked, r.stream)
  else
    fN (bufLen * r.fmt.blockAlign) fun nBytes =>
    if r.stream.length < nBytes then
      (.error (if r.stream.length = 0 then .eof else .truncated), [])
    else
      match runSteps next (bufLen * numBufs) (r.stream.take nBytes) with
      | .panicked => (.panicked, r.stream.drop nBytes)
      | .ok (flat, raw2) =>
        if raw2 ≠ [] then (.error (.internal raw2.length nBytes), r.stream.drop nBytes)
        else (.ok (splitChannels numBufs bufLen flat) bufLen, r.stream.drop nBytes)

/-- Conversion selection of `Reader.Read8PCM` (both switches have explicit
default error branches). -/
def read8PCMNext (f : FmtChunk) : Except RunErr (Option (List Nat → POut (Nat × List Nat))) :=
  if rFormat f = PCM then
    if f.bitsPerSample ≤ 8 then .ok (some nextByte)
    else if f.bitsPerSample ≤ 16 then .ok (some fun bs =>
      match nextInt16 bs with
      | .panicked => .panicked
      | .ok (i, t) => .ok (int16ToByte i, t))
    else .error .unsupported
  else .error .unsupported

def read8PCM (numBufs bufLen : Nat) (r : ReaderSt) : RunRes Nat × List Nat :=
  match read8PCMNext r.fmt with
  | .error e => (.error e, r.stream)
  | .ok next => readInto numBufs bufLen r next

/-- Conversion selection of `Reader.Read16PCM`. -/
def read16PCMNext (f : FmtChunk) : Except RunErr (Option (List Nat → POut (Int × List Nat))) :=
  if rFormat f = PCM then
    if f.bitsPerSample ≤ 8 then .ok (some fun bs =>
      match nextByte bs with
      | .panicked => .panicked
      | .ok (b, t) => .ok (wrap16 (((b : Int) - 128) * 256), t))
    else if f.bitsPerSample ≤ 16 then .ok (some nextInt16)
    else .error .unsupported
  else .error .unsupported

def read16PCM (numBufs bufLen : Nat) (r : ReaderSt) : RunRes Int × List Nat :=
  match read16PCMNext r.fmt with
  | .error e => (.error e, r.stream)
  | .ok next => readInto numBufs bufLen r next

/-- The Go constant `1.0 / float32(math.MaxInt16)`, rounded once. -/
def invMax16f32 : ℚ := rnd 24 (Rat.divInt 1 32767)

/-- The Go constant `1.0 / float64(math.MaxInt16)`, rounded once. -/
def invMax16f64 : ℚ := rnd 53 (Rat.divInt 1 32767)

/-- Conversion selection of `Reader.Read32Float`.  The outer switch has no
default branch: for an encoding other than PCM or IEEE-float the source
falls through with `nextSample` still `nil` (modelled `.ok none`), which
`readInto` then calls. -/
def read32FloatNext (f : FmtChunk) : Except RunErr (Option (List Nat → POut (ℚ × List Nat))) :=
  if rFormat f = PCM then
    if f.bitsPerSample ≤ 8 then .ok (some fun bs =>
      match nextByte bs with
      | .panicked => .panicked
      | .ok (b, t) => .ok (f32sub (f32mul (b : ℚ) (Rat.divInt 1 128)) 1, t))
    else if f.bitsPerSample ≤ 16 then .ok (some fun bs =>
      match nextInt16 bs with
      | .panicked => .panicked
      | .ok (i, t) => .ok (f32mul (i : ℚ) invMax16f32, t))
    else .error .unsupported
  else if rFormat f = IEEEFloat then
    if f.bitsPerSample ≤ 32 then .ok (some nextFloat32)
    else if f.bitsPerSample ≤ 64 then .ok (some fun bs =>
      match nextFloat64 bs with
      | .panicked => .panicked
      | .ok (v, t) => .ok (rnd 24 v, t))
    else .error .unsupported
  else .ok none

def read32Float (numBufs bufLen : Nat) (r : ReaderSt) : RunRes ℚ × List Nat :=
  match read32FloatNext r.fmt with
  | .error e => (.error e, r.stream)
  | .ok next => readInto numBufs bufLen r next

/-- Conversion selection of `Reader.Read64Float` (same shape, `nil` fall
through for unknown encodings). -/
def read64FloatNext (f : FmtChunk) : Except RunErr (Option (List Nat → POut (ℚ × List Nat))) :=
  if rFormat f = PCM then
    if f.bitsPerSample ≤ 8 then .ok (some fun bs =>
      match nextByte bs with
      | .panicked => .panicked
      | .ok (b, t) => .ok (f64sub (f64mul (b : ℚ) (Rat.divInt 1 128)) 1, t))
    else if f.bitsPerSample ≤ 16 then .ok (some fun bs =>
      match nextInt16 bs with
      | .panicked => .panicked
      | .ok (i, t) => .ok (f64mul (i : ℚ) invMax16f64, t))
    else .error .unsupported
  else if rFormat f = IEEEFloat then
    if f.bitsPerSample ≤ 32 then .ok (some fun bs =>
      match nextFloat32 bs with
      | .panicked => .panicked
      | .ok (v, t) => .ok (v, t))
    else if f.bitsPerSample ≤ 64 then .ok (some nextFloat64)
    else .error .unsupported
  else .ok none

def read64Float (numBufs bufLen : Nat) (r : ReaderSt) : RunRes ℚ × List Nat :=
  match read64FloatNext r.fmt with
  | .error e => (.error e, r.stream)
  | .ok next => readInto numBufs bufLen r next

/-! ## wav stream writer: sample encode operations

`WavWriterSt` models the wav `Writer`: the descriptor, whether the data
chunk writer `dc` is still open (`Close` sets it to `nil`), and the bytes
written to the data chunk so far.  The riff size backpatching performed by
`Close` happens outside the data chunk and does not affect these claims. -/

structure WavWriterSt : Type where
  fmt : FmtChunk
  dcOpen : Bool
  out : List Nat
  deriving DecidableEq, Repr

inductive WErr : Type
  | wrongChannels (got want : Nat)  -- "wrong number of channels ..."
  | unsupported                     -- "writing ... not implemented"
  | afterClose                      -- "Write called after Close"
  deriving DecidableEq, Repr

inductive WRes : Type
  | ok (n : Nat)
  | error (e : WErr)
  | panicked
  deriving DecidableEq, Repr

/-- `Writer.Write`: rejected once `w.dc` is `nil`, otherwise the bytes go to
the data chunk. -/
def wavWrite (w : WavWriterSt) (p : List Nat) : WRes × WavWriterSt :=
  if w.dcOpen = false then (.error .afterClose, w)
  else (.ok p.length, { w with out := w.out ++ p })

/-- `Writer.Close`: closes the data chunk writer and sets `w.dc = nil`.  A
second `Close` dereferences the `nil` chunk writer and faults. -/
def wavClose (w : WavWriterSt) : POut WavWriterSt :=
  if w.dcOpen = false then .panicked
  else .ok { w with dcOpen := false }

/-- `Writer.checkChannels`. -/
def checkChannels (f : FmtChunk) (channels : Nat) : Option WErr :=
  if channels = f.channels then none else some (.wrongChannels channels f.channels)

def le16 (u : Nat) : List Nat := [u % 256, u / 256 % 256]

def toU16 (i : Int) : Nat := (i % 65536).toNat

/-- The interleaving loop order of `writeSamples`: frame index outer,
channel inner. -/
def framePairs (bufLen channels : Nat) : List (Nat × Nat) :=
  (List.range bufLen).flatMap fun i => (List.range channels).map fun c => (i, c)

def appendAll {α : Type} [Inhabited α] (app : Option (List Nat → α → List Nat))
    (samples : List (List α)) : List (Nat × Nat) → List Nat → POut (List Nat)
  | [], acc => .ok acc
  | (i, c) :: rest, acc =>
    match app with
    | none => .panicked
    | some f => appendAll app samples rest (f acc ((samples.getD c []).getD i default))

/-- `writeSamples`: iterates `range samples[0]` (an out-of-range fault on an
empty slice of buffers), interleaves one appended sample per channel per
frame into the scratch buffer, then performs one `w.Write`. -/
def writeSamplesGo {α : Type} [Inhabited α] (w : WavWriterSt) (samples : List (List α))
    (app : Option (List Nat → α → List Nat)) : WRes × WavWriterSt :=
  match samples with
  | [] => (.panicked, w)
  | s0 :: _ =>
    match appendAll app samples (framePairs s0.length samples.length) [] with
    | .panicked => (.panicked, w)
    | .ok scratch => wavWrite w scratch

/-- Conversion selection of `Writer.Write8PCM` (explicit error defaults). -/
def write8PCMApp (f : FmtChunk) : Except WErr (Option (List Nat → Nat → List Nat)) :=
  if rFormat f = PCM then
    if f.bitsPerSample ≤ 8 then .ok (some fun bs b => bs ++ [b])
    else if f.bitsPerSample ≤ 16 then .ok (some fun bs b =>
      bs ++ le16 (toU16 (wrap16 (((b : Int) - 128) * 256))))
    else .error .unsupported
  else .error .unsupported

def write8PCM (w : WavWriterSt) (samples : List (List Nat)) : WRes × WavWriterSt :=
  match checkChannels w.fmt samples.length with
  | some e => (.error e, w)
  | none =>
    match write8PCMApp w.fmt with
    | .error e => (.error e, w)
    | .ok app => writeSamplesGo w samples app

/-- Conversion selection of `Writer.Write16PCM`.  The `bd <= 8` case of the
source is an empty case body: `appendSample` stays `nil` (`.ok none`) and
`writeSamples` faults on the first sample it appends. -/
def write16PCMApp (f : FmtChunk) : Except WErr (Option (List Nat → Int → List Nat)) :=
  if rFormat f = PCM then
    if f.bitsPerSample ≤ 8 then .ok none
    else if f.bitsPerSample ≤ 16 then .ok (some fun bs i => bs ++ le16 (toU16 i))
    else .error .unsupported
  else .error .unsupported

def write16PCM (w : WavWriterSt) (samples : List (List Int)) : WRes × WavWriterSt :=
  match checkChannels w.fmt samples.length with
  | some e => (.error e, w)
  | none =>
    match write16PCMApp w.fmt with
    | .error e => (.error e, w)
    | .ok app => writeSamplesGo w samples app

instance {ε α : Type} [DecidableEq ε] [DecidableEq α] : DecidableEq (Except ε α)
  | .error e, .error f =>
      if h : e = f then isTrue (by rw [h]) else isFalse (by simp [h])
  | .error _, .ok _ => isFalse (by simp)
  | .ok _, .error _ => isFalse (by simp)
  | .ok a, .ok b =>
      if h : a = b then isTrue (by rw [h]) else isFalse (by simp [h])

/-! ## Claims -/

/-- C1: the claim says every (source, target) sample pairing with no defined
formula returns a typed unsupported-conversion error and never aborts.  In
the code the matrix gaps are `panic("not implemented")` and a decode whose
encoding matches no branch of `Read32Float` calls a `nil` conversion
function: all of these abort instead of returning an error.  Evaluated at
concrete inputs (sample value 0; an A-law stream read as float32). -/
theorem c1_unimplemented_pairings_panic :
    from16PCMToFloat64 0 = POut.panicked ∧
    from24PCMToFloat32 0 = POut.panicked ∧
    from24PCMToFloat64 0 = POut.panicked ∧
    fromFloat32To24PCM 0 = POut.panicked ∧
    fromFloat64To16PCM 0 = POut.panicked ∧
    fromFloat64To24PCM 0 = POut.panicked ∧
    read32Float 1 1 ⟨⟨ALaw, 1, 8000, 8000, 1, 8, 0, 0, 0⟩, [7]⟩ = (.panicked, []) := by
  refine ⟨rfl, rfl, rfl, rfl, rfl, rfl, ?_⟩
  decide

/-- C2: the claim says `as24PCM` reconstructs each 3-byte little-endian
group as `lo ||| (mid <<< 8) ||| (hi <<< 16)`.  The code combines the
shifted bytes with bitwise AND, whose fields are disjoint, so the sample
decoded from bytes `[1, 2, 3]` is `0` rather than `197121`. -/
theorem c2_as24PCM_uses_and :
    as24PCM [1, 2, 3] = .ok [0] ∧
    (1 ||| (2 <<< 8) ||| (3 <<< 16) : Nat) = 197121 ∧
    (0 : Int) ≠ 197121 := by
  decide

/-- C3: the claim says a supported decode consumes exactly
`N × block-align` bytes and that `Read32Float` on an IEEE-float 32-bit file
fills the buffers and returns `N`.  Because `nextFloat32` returns `raw[:4]`
(the same four bytes) instead of `raw[4:]`, the decode loop never advances:
on a 1-channel 32-bit float file with one frame `[0,0,0,0]` the operation
reports the internal could-not-use-all-bytes error (4 of 4 bytes left)
instead of succeeding with one sample. -/
theorem c3_read32Float_never_consumes :
    read32Float 1 1 ⟨⟨IEEEFloat, 1, 44100, 176400, 4, 32, 0, 0, 0⟩, [0, 0, 0, 0]⟩ =
      (.error (.internal 4 4), []) ∧
    RunRes.error (α := ℚ) (.internal 4 4) ≠ RunRes.ok [[f32OfBits 0]] 1 := by
  refine ⟨by decide, by simp⟩

/-- C5 counterexample: the claim says end-of-stream after the 4-byte
identifier but before the size field is a truncation error distinct from
the clean end-of-container signal.  On a stream holding exactly a 4-byte
identifier, `io.ReadFull` of the size field reads zero bytes and returns
the clean `io.EOF`, which `ReadChunk` propagates unchanged: the caller sees
the clean end-of-container signal, not a truncation error. -/
theorem c5_eof_after_identifier_is_clean :
    (riffReadChunk ⟨[97, 98, 99, 100], 0, false⟩).1 = .error RiffErr.eof ∧
    RiffErr.eof ≠ RiffErr.unexpectedEOF := by
  decide

theorem getD_take_lt (l : List Nat) {n i : Nat} (h : i < n) :
    (l.take n).getD i 0 = l.getD i 0 := by
  simp [List.getD_eq_getElem?_getD, List.getElem?_take_of_lt h]

theorem le16at_take (l : List Nat) {n i : Nat} (h : i + 1 < n) :
    le16at (l.take n) i = le16at l i := by
  rw [le16at, le16at, getD_take_lt l (by omega), getD_take_lt l (by omega)]

theorem le32at_take (l : List Nat) {n i : Nat} (h : i + 3 < n) :
    le32at (l.take n) i = le32at l i := by
  rw [le32at, le32at, le16at_take l (by omega), le16at_take l (by omega)]

/-- Case analysis of `readChunkHeader` by stream length: the clean `io.EOF`
appears exactly at length 0 (nothing of the header) and at length 4 (the
identifier complete, no size bytes at all). -/
theorem readChunkHeader_eq (s : List Nat) :
    readChunkHeader s =
      if s.length = 0 then .error .eof
      else if s.length < 4 then .error .unexpectedEOF
      else if s.length = 4 then .error .eof
      else if s.length < 8 then .error .unexpectedEOF
      else .ok ((s.take 4, le32at (s.drop 4) 0), (s.drop 4).drop 4) := by
  rcases Nat.lt_or_ge s.length 4 with h | h
  · rcases Nat.eq_zero_or_pos s.length with h0 | h0
    · simp [readChunkHeader, readFull, h0]
    · have ha : ¬ 4 ≤ s.length := by omega
      have hb : ¬ s.length = 0 := by omega
      simp [readChunkHeader, readFull, ha, hb, h]
  · rcases Nat.lt_or_ge s.length 8 with h8 | h8
    · rcases Nat.eq_or_lt_of_le h with h4 | h4
      · have ha : (s.drop 4).length = 0 := by simp; omega
        have hb : ¬ 4 ≤ (s.drop 4).length := by omega
        have hc : ¬ s.length = 0 := by omega
        have hd : ¬ s.length < 4 := by omega
        simp [readChunkHeader, readFull, h, ha, hb, hc, hd, h4.symm]
      · have ha : ¬ (s.length - 4 = 0) := by omega
        have hb : ¬ 4 ≤ s.length - 4 := by omega
        have hc : ¬ s.length = 0 := by omega
        have hd : ¬ s.length < 4 := by omega
        have he : ¬ s.length = 4 := by omega
        simp [readChunkHeader, readFull, h, ha, hb, hc, hd, he, h8]
    · have ha : 4 ≤ s.length - 4 := by omega
      have hb : ¬ s.length = 0 := by omega
      have hc : ¬ s.length < 4 := by omega
      have hd : ¬ s.length = 4 := by omega
      have he : ¬ s.length < 8 := by omega
      have hm : le32at ((s.drop 4).take 4) 0 = le32at (s.drop 4) 0 :=
        le32at_take (s.drop 4) (by omega)
      simp [readChunkHeader, readFull, h, ha, hb, hc, hd, he, hm]

theorem riffReadChunk_fresh (s : List Nat) :
    riffReadChunk ⟨s, 0, false⟩ = riffReadChunkCore s := by
  cases s <;> rfl

/-- C5 amended: `ReadChunk` on a fresh boundary returns the clean
end-of-container signal both when end-of-stream occurs at the start of the
8-byte header and when it occurs exactly after the 4-byte identifier with
no size bytes available (`io.ReadFull` reports a clean `io.EOF` whenever it
reads zero bytes); end-of-stream elsewhere inside the header — a partial
identifier or a partial size field — is the distinct truncation error; with
a full header available the chunk's identifier and little-endian size are
returned. -/
theorem c5_amended_clean_eof_boundaries : ∀ s : List Nat,
    ((riffReadChunk ⟨s, 0, false⟩).1 = .error RiffErr.eof ↔
      s.length = 0 ∨ s.length = 4) ∧
    ((riffReadChunk ⟨s, 0, false⟩).1 = .error RiffErr.unexpectedEOF ↔
      s.length < 8 ∧ s.length ≠ 0 ∧ s.length ≠ 4) ∧
    (8 ≤ s.length →
      (riffReadChunk ⟨s, 0, false⟩).1 = .ok (s.take 4, le32at (s.drop 4) 0)) := by
  intro s
  rw [riffReadChunk_fresh, riffReadChunkCore, readChunkHeader_eq]
  by_cases h0 : s.length = 0
  · simp [h0]
  · by_cases h1 : s.length < 4
    · simp [h0, h1]; omega
    · by_cases h2 : s.length = 4
      · simp [h0, h1, h2]
      · by_cases h3 : s.length < 8
        · simp [h0, h1, h2, h3]
        · simp [h0, h1, h2, h3]

/-- C5 amended, witness: a 10-byte stream holding a complete header
(identifier `data`, size 2) followed by its payload is read as that chunk. -/
theorem c5_amended_witness :
    (riffReadChunk ⟨[100, 97, 116, 97, 2, 0, 0, 0, 9, 9], 0, false⟩).1 =
      .ok ([100, 97, 116, 97], 2) :=
  (c5_amended_clean_eof_boundaries [100, 97, 116, 97, 2, 0, 0, 0, 9, 9]).2.2 (by decide)

/-- C8 helper: a decode with a mismatched buffer count is rejected by
`readInto` before any byte of the stream is consumed. -/
theorem readInto_wrong_channels {α : Type} [Inhabited α] (numBufs bufLen : Nat)
    (r : ReaderSt) (next : Option (List Nat → POut (α × List Nat)))
    (h : numBufs ≠ r.fmt.channels) :
    readInto numBufs bufLen r next =
      (.error (.wrongChannels numBufs r.fmt.channels), r.stream) := by
  simp [readInto, h]

/-- C8: every sample decode operation called with a buffer count different
from the declared channel count, and every sample encode operation called
with a source-buffer count different from it, returns an error with the
underlying byte stream untouched (decode: the data stream is unchanged;
encode: the writer state, including every byte written so far, is
unchanged).  A decode whose conversion selection already fails returns that
error, equally before any I/O. -/
theorem c8_channel_mismatch_rejected_before_io :
    ∀ (numBufs bufLen : Nat) (r : ReaderSt) (w : WavWriterSt)
      (s8 : List (List Nat)) (s16 : List (List Int)),
    numBufs ≠ r.fmt.channels →
    s8.length ≠ w.fmt.channels →
    s16.length ≠ w.fmt.channels →
    (∃ e, read8PCM numBufs bufLen r = (.error e, r.stream)) ∧
    (∃ e, read16PCM numBufs bufLen r = (.error e, r.stream)) ∧
    (∃ e, read32Float numBufs bufLen r = (.error e, r.stream)) ∧
    (∃ e, read64Float numBufs bufLen r = (.error e, r.stream)) ∧
    (∃ e, write8PCM w s8 = (.error e, w)) ∧
    (∃ e, write16PCM w s16 = (.error e, w)) := by
  intro numBufs bufLen r w s8 s16 h1 h2 h3
  refine ⟨?_, ?_, ?_, ?_, ?_, ?_⟩
  · rcases hd : read8PCMNext r.fmt with e | next
    · exact ⟨e, by simp [read8PCM, hd]⟩
    · exact ⟨.wrongChannels numBufs r.fmt.channels,
        by simp [read8PCM, hd, readInto_wrong_channels numBufs bufLen r next h1]⟩
  · rcases hd : read16PCMNext r.fmt with e | next
    · exact ⟨e, by simp [read16PCM, hd]⟩
    · exact ⟨.wrongChannels numBufs r.fmt.channels,
        by simp [read16PCM, hd, readInto_wrong_channels numBufs bufLen r next h1]⟩
  · rcases hd : read32FloatNext r.fmt with e | next
    · exact ⟨e, by simp [read32Float, hd]⟩
    · exact ⟨.wrongChannels numBufs r.fmt.channels,
        by simp [read32Float, hd, readInto_wrong_channels numBufs bufLen r next h1]⟩
  · rcases hd : read64FloatNext r.fmt with e | next
    · exact ⟨e, by simp [read64Float, hd]⟩
    · exact ⟨.wrongChannels numBufs r.fmt.channels,
        by simp [read64Float, hd, readInto_wrong_channels numBufs bufLen r next h1]⟩
  · exact ⟨.wrongChannels s8.length w.fmt.channels, by simp [write8PCM, checkChannels, h2]⟩
  · exact ⟨.wrongChannels s16.length w.fmt.channels, by simp [write16PCM, checkChannels, h3]⟩

/-- C8 witness: two buffers against a one-channel stream are rejected with
the stream untouched. -/
theorem c8_witness :
    ∃ e, read8PCM 2 0 ⟨⟨1, 1, 8000, 8000, 1, 8, 0, 0, 0⟩, [5]⟩ = (.error e, [5]) :=
  (c8_channel_mismatch_rejected_before_io 2 0 ⟨⟨1, 1, 8000, 8000, 1, 8, 0, 0, 0⟩, [5]⟩
    ⟨⟨1, 1, 8000, 8000, 1, 8, 0, 0, 0⟩, true, []⟩ [] []
    (by decide) (by decide) (by decide)).1

/-- C9 helper: once the data chunk writer is gone, `writeSamples` never
reaches the sink and never reports success. -/
theorem writeSamplesGo_closed {α : Type} [Inhabited α] (w : WavWriterSt)
    (h : w.dcOpen = false) (samples : List (List α))
    (app : Option (List Nat → α → List Nat)) :
    (writeSamplesGo w samples app).2 = w ∧
    ∀ n, (writeSamplesGo w samples app).1 ≠ .ok n := by
  cases samples with
  | nil => simp [writeSamplesGo]
  | cons s0 rest =>
    rw [writeSamplesGo]
    cases happ : appendAll app (s0 :: rest) (framePairs s0.length (s0 :: rest).length) [] with
    | panicked => simp
    | ok scratch => simp [wavWrite, h]

/-- C9: after a successful `Writer.Close`, `Write` returns the
"Write called after Close" error without appending a byte, and the typed
write operations that funnel through it never report success and never
append a byte either. -/
theorem c9_write_after_close :
    ∀ (w w' : WavWriterSt) (p : List Nat) (s8 : List (List Nat)) (s16 : List (List Int)),
    wavClose w = .ok w' →
    wavWrite w' p = (.error .afterClose, w') ∧
    ((write8PCM w' s8).2 = w' ∧ ∀ n, (write8PCM w' s8).1 ≠ .ok n) ∧
    ((write16PCM w' s16).2 = w' ∧ ∀ n, (write16PCM w' s16).1 ≠ .ok n) := by
  intro w w' p s8 s16 hc
  rw [wavClose] at hc
  have hw' : w'.dcOpen = false := by
    by_cases h : w.dcOpen = false
    · rw [if_pos h] at hc; exact absurd hc (by simp)
    · rw [if_neg h] at hc
      have : { w with dcOpen := false } = w' := by
        cases hc'' : hc; rfl
      rw [← this]
  refine ⟨by simp [wavWrite, hw'], ?_, ?_⟩
  · rw [write8PCM]
    cases hchk : checkChannels w'.fmt s8.length with
    | some e => simp
    | none =>
      cases happ : write8PCMApp w'.fmt with
      | error e => simp
      | ok app => simpa using writeSamplesGo_closed w' hw' s8 app
  · rw [write16PCM]
    cases hchk : checkChannels w'.fmt s16.length with
    | some e => simp
    | none =>
      cases happ : write16PCMApp w'.fmt with
      | error e => simp
      | ok app => simpa using writeSamplesGo_closed w' hw' s16 app

/-- C9 witness: closing a writer and then writing two raw bytes returns the
after-close error with nothing appended. -/
theorem c9_witness :
    wavWrite ⟨⟨1, 1, 8000, 8000, 1, 8, 0, 0, 0⟩, false, []⟩ [1, 2] =
      (.error .afterClose, ⟨⟨1, 1, 8000, 8000, 1, 8, 0, 0, 0⟩, false, []⟩) :=
  (c9_write_after_close ⟨⟨1, 1, 8000, 8000, 1, 8, 0, 0, 0⟩, true, []⟩
    ⟨⟨1, 1, 8000, 8000, 1, 8, 0, 0, 0⟩, false, []⟩ [1, 2] [] [] (by decide)).1

/-- C10: with a descriptor declaring 0 channels, the channel-count
validation accepts an empty buffer list, after which the decode loop
(`readInto`, via `nSamples := len(data[0])`) and the encode loop
(`writeSamples`, via `range samples[0]`) index the missing first buffer and
fault instead of returning an error; shown both for the shared loops and
for complete operations (`Read8PCM` / `Write8PCM` on a supported PCM
descriptor). -/
theorem c10_zero_channels_faults :
    ∀ (bufLen : Nat) (r : ReaderSt) (w : WavWriterSt)
      (next : Option (List Nat → POut (Nat × List Nat)))
      (app : Option (List Nat → Nat → List Nat)),
    r.fmt.channels = 0 → w.fmt.channels = 0 →
    checkChannels w.fmt 0 = none ∧
    readInto 0 bufLen r next = (.panicked, r.stream) ∧
    writeSamplesGo w ([] : List (List Nat)) app = (.panicked, w) ∧
    (rFormat r.fmt = PCM → r.fmt.bitsPerSample ≤ 16 →
      read8PCM 0 bufLen r = (.panicked, r.stream)) ∧
    (rFormat w.fmt = PCM → w.fmt.bitsPerSample ≤ 16 →
      write8PCM w ([] : List (List Nat)) = (.panicked, w)) := by
  intro bufLen r w next app hr hw
  refine ⟨by simp [checkChannels, hw], by simp [readInto, hr], by simp [writeSamplesGo], ?_, ?_⟩
  · intro hf hb
    by_cases h8 : r.fmt.bitsPerSample ≤ 8
    · simp [read8PCM, read8PCMNext, hf, h8, readInto, hr]
    · simp [read8PCM, read8PCMNext, hf, h8, hb, readInto, hr]
  · intro hf hb
    by_cases h8 : w.fmt.bitsPerSample ≤ 8
    · simp [write8PCM, checkChannels, hw, write8PCMApp, hf, h8, writeSamplesGo]
    · simp [write8PCM, checkChannels, hw, write8PCMApp, hf, h8, hb, writeSamplesGo]

/-- C10 witness: a 0-channel PCM stream with an empty buffer list faults in
both the decode loop and the full `Read8PCM` operation. -/
theorem c10_witness :
    readInto 0 3 ⟨⟨1, 0, 8000, 8000, 1, 8, 0, 0, 0⟩, [1, 2, 3]⟩ (some nextByte) =
      (.panicked, [1, 2, 3]) ∧
    read8PCM 0 3 ⟨⟨1, 0, 8000, 8000, 1, 8, 0, 0, 0⟩, [1, 2, 3]⟩ = (.panicked, [1, 2, 3]) :=
  have h := c10_zero_channels_faults 3 ⟨⟨1, 0, 8000, 8000, 1, 8, 0, 0, 0⟩, [1, 2, 3]⟩
    ⟨⟨1, 0, 8000, 8000, 1, 8, 0, 0, 0⟩, true, []⟩ (some nextByte) none rfl rfl
  ⟨h.2.1, h.2.2.2.1 (by decide) (by decide)⟩

/-- C4: the claim says chunks written through `NewChunk`/`Close` — including
one with an odd-length payload — are read back unchanged.  `chunkWriter.Close`
never writes the pad byte (the source carries `TODO: write the pad byte`),
while the reader consumes one pad byte after every odd-sized chunk, so it
swallows the first byte of the next chunk's identifier and then misparses:
writing chunk `ck01` with the single byte `0xAA` followed by the empty
chunk `ck02` produces a file whose read-back yields only the first chunk and
then a truncation error — not the two written chunks.  With even-length
payloads the same pipeline round-trips cleanly, isolating the missing pad
byte as the cause. -/
theorem c4_odd_chunk_roundtrip_fails :
    riffWriteFile [116, 101, 115, 116] [([99, 107, 48, 49], [170]), ([99, 107, 48, 50], [])] =
      .ok [82, 73, 70, 70, 21, 0, 0, 0, 116, 101, 115, 116,
           99, 107, 48, 49, 1, 0, 0, 0, 170,
           99, 107, 48, 50, 0, 0, 0, 0] ∧
    riffNewReader [82, 73, 70, 70, 21, 0, 0, 0, 116, 101, 115, 116,
                   99, 107, 48, 49, 1, 0, 0, 0, 170,
                   99, 107, 48, 50, 0, 0, 0, 0] =
      .ok ([116, 101, 115, 116],
           ⟨[99, 107, 48, 49, 1, 0, 0, 0, 170, 99, 107, 48, 50, 0, 0, 0, 0], 0, false⟩) ∧
    readAllChunks 5 ⟨[99, 107, 48, 49, 1, 0, 0, 0, 170, 99, 107, 48, 50, 0, 0, 0, 0], 0, false⟩ =
      ([([99, 107, 48, 49], 1, [170])], some RiffErr.unexpectedEOF) ∧
    ([([99, 107, 48, 49], 1, [170])], some RiffErr.unexpectedEOF) ≠
      ([([99, 107, 48, 49], 1, [170]), ([99, 107, 48, 50], 0, [])],
        (none : Option RiffErr)) ∧
    riffWriteFile [116, 101, 115, 116]
        [([99, 107, 48, 49], [170, 171]), ([99, 107, 48, 50], [])] =
      .ok [82, 73, 70, 70, 22, 0, 0, 0, 116, 101, 115, 116,
           99, 107, 48, 49, 2, 0, 0, 0, 170, 171,
           99, 107, 48, 50, 0, 0, 0, 0] ∧
    readAllChunks 5 ⟨[99, 107, 48, 49, 2, 0, 0, 0, 170, 171, 99, 107, 48, 50, 0, 0, 0, 0],
        0, false⟩ =
      ([([99, 107, 48, 49], 2, [170, 171]), ([99, 107, 48, 50], 0, [])], none) := by
  decide

theorem getD_drop (l : List Nat) (k i : Nat) : (l.drop k).getD i 0 = l.getD (k + i) 0 := by
  simp [List.getD_eq_getElem?_getD, List.getElem?_drop]

theorem le16at_drop (l : List Nat) (k i : Nat) : le16at (l.drop k) i = le16at l (k + i) := by
  rw [le16at, le16at, getD_drop, getD_drop, Nat.add_assoc]

theorem le32at_drop (l : List Nat) (k i : Nat) : le32at (l.drop k) i = le32at l (k + i) := by
  rw [le32at, le32at, le16at_drop, le16at_drop, Nat.add_assoc]

/-- The six mandatory fields of the descriptor at their wire offsets. -/
def mandatoryOf (bs : List Nat) : FmtChunk :=
  ⟨le16at bs 0, le16at bs 2, le32at bs 4, le32at bs 8, le16at bs 12, le16at bs 14, 0, 0, 0⟩

/-- The extensible descriptor: mandatory fields plus valid bits, channel
mask and sub-format at their wire offsets. -/
def extensibleOf (bs : List Nat) : FmtChunk :=
  { mandatoryOf bs with validBitsPerSample := le16at bs 18, channelMask := le32at bs 20,
                        subFormat := le16at bs 24 }

/-- Normal form of `readFmtChunk` on an input holding the 16 mandatory
bytes, with every field read at its absolute wire offset. -/
theorem readFmtChunk_eq (bs : List Nat) (h : 16 ≤ bs.length) :
    readFmtChunk bs =
      (if le16at bs 0 = PCM then .ok (mandatoryOf bs)
       else if le16at bs 0 = ALaw ∨ le16at bs 0 = MuLaw then
         (if bs.length < 18 then .error .truncated
          else if le16at bs 16 ≠ 0 then .error .badCbSize
          else if le16at bs 14 ≠ 8 then .error .badBits
          else .ok (mandatoryOf bs))
       else if le16at bs 0 = Extensible then
         (if bs.length < 40 then .error .truncated
          else if le16at bs 16 ≠ 22 then .error .badExtSize
          else if le16at bs 24 = Extensible then .error .subformatExtensible
          else if ¬(le16at bs 24 = PCM ∨ le16at bs 24 = ALaw ∨ le16at bs 24 = MuLaw ∨
                     le16at bs 24 = IEEEFloat) then .error .subformatUnknown
          else if (bs.drop 26).take 14 ≠ fmtMagic then .error .badMagic
          else .ok (extensibleOf bs))
       else .error .unknownFormat) := by
  have hrf : readFull 16 bs = .ok (bs.take 16, bs.drop 16) := by
    rw [readFull, if_pos h]
  have e0 : le16at (bs.take 16) 0 = le16at bs 0 := le16at_take bs (by omega)
  have e2 : le16at (bs.take 16) 2 = le16at bs 2 := le16at_take bs (by omega)
  have e4 : le32at (bs.take 16) 4 = le32at bs 4 := le32at_take bs (by omega)
  have e8 : le32at (bs.take 16) 8 = le32at bs 8 := le32at_take bs (by omega)
  have e12 : le16at (bs.take 16) 12 = le16at bs 12 := le16at_take bs (by omega)
  have e14 : le16at (bs.take 16) 14 = le16at bs 14 := le16at_take bs (by omega)
  rw [readFmtChunk, hrf]
  simp only [fN_eq, e0, e2, e4, e8, e12, e14]
  by_cases hP : le16at bs 0 = PCM
  · simp [hP, mandatoryOf]
  · simp only [if_neg hP]
    by_cases hAM : le16at bs 0 = ALaw ∨ le16at bs 0 = MuLaw
    · simp only [if_pos hAM]
      by_cases h18 : 18 ≤ bs.length
      · have hrf2 : readFull 2 (bs.drop 16) = .ok ((bs.drop 16).take 2, (bs.drop 16).drop 2) := by
          rw [readFull, if_pos (by simp; omega)]
        have ec : le16at ((bs.drop 16).take 2) 0 = le16at bs 16 := by
          rw [le16at_take (bs.drop 16) (by omega), le16at_drop]
        rw [hrf2]
        simp only [ec, if_neg (by omega : ¬ bs.length < 18)]
        by_cases hcb : le16at bs 16 ≠ 0
        · simp [hcb]
        · by_cases hbits : le16at bs 14 ≠ 8
          · simp [hcb, hbits, mandatoryOf]
          · simp [hcb, hbits, mandatoryOf]
      · have : bs.length < 18 := by omega
        rcases hrf2 : readFull 2 (bs.drop 16) with e | pr
        · simp [hrf2, this]
        · exfalso
          rw [readFull] at hrf2
          rw [if_neg (by simp; omega)] at hrf2
          by_cases hz : (bs.drop 16).length = 0
          · rw [if_pos hz] at hrf2; cases hrf2
          · rw [if_neg hz] at hrf2; cases hrf2
    · simp only [if_neg hAM]
      by_cases hX : le16at bs 0 = Extensible
      · simp only [if_pos hX]
        by_cases h40 : 40 ≤ bs.length
        · have hrf2 : readFull 24 (bs.drop 16) =
              .ok ((bs.drop 16).take 24, (bs.drop 16).drop 24) := by
            rw [readFull, if_pos (by simp; omega)]
          have x0 : le16at ((bs.drop 16).take 24) 0 = le16at bs 16 := by
            rw [le16at_take (bs.drop 16) (by omega), le16at_drop]
          have x2 : le16at ((bs.drop 16).take 24) 2 = le16at bs 18 := by
            rw [le16at_take (bs.drop 16) (by omega), le16at_drop]
          have x4 : le32at ((bs.drop 16).take 24) 4 = le32at bs 20 := by
            rw [le32at_take (bs.drop 16) (by omega), le32at_drop]
          have x8 : le16at ((bs.drop 16).take 24) 8 = le16at bs 24 := by
            rw [le16at_take (bs.drop 16) (by omega), le16at_drop]
          have xm : ((bs.drop 16).take 24).drop 10 = (bs.drop 26).take 14 := by
            rw [List.drop_take, List.drop_drop]
          rw [hrf2]
          simp only [fN_eq, x0, x2, x4, x8, xm, if_neg (by omega : ¬ bs.length < 40)]
          simp [mandatoryOf, extensibleOf]
        · have : bs.length < 40 := by omega
          rcases hrf2 : readFull 24 (bs.drop 16) with e | pr
          · simp [hrf2, this]
          · exfalso
            rw [readFull] at hrf2
            rw [if_neg (by simp; omega)] at hrf2
            by_cases hz : (bs.drop 16).length = 0
            · rw [if_pos hz] at hrf2; cases hrf2
            · rw [if_neg hz] at hrf2; cases hrf2
      · simp [hX]

theorem readFull_short (n : Nat) (s : List Nat) (h : s.length < n) :
    ∃ e, readFull n s = .error e := by
  rw [readFull, if_neg (by omega)]
  by_cases hz : s.length = 0
  · exact ⟨_, by rw [if_pos hz]⟩
  · exact ⟨_, by rw [if_neg hz]⟩

/-- C6: full behaviour of `readFmtChunk`.  After the 16 mandatory
little-endian bytes it succeeds immediately for linear PCM; for A-law and
mu-law it reads a 2-byte extension size that must be 0 and requires 8 bits
per sample, failing otherwise; for extensible it requires extension size
22, a sub-format among PCM, A-law, mu-law and IEEE-float (rejecting
extensible itself and unknown tags) and the fixed 14-byte trailer; any
other encoding tag fails; and any input exhausted before the bytes its
branch requires — in particular one shorter than 16 bytes — is a
truncation error. -/
theorem c6_readFmtChunk_parse :
    (∀ bs : List Nat, bs.length < 16 → readFmtChunk bs = .error .truncated) ∧
    (∀ bs : List Nat, 16 ≤ bs.length → le16at bs 0 = PCM →
      readFmtChunk bs = .ok (mandatoryOf bs)) ∧
    (∀ bs : List Nat, 16 ≤ bs.length → bs.length < 18 →
      (le16at bs 0 = ALaw ∨ le16at bs 0 = MuLaw) → readFmtChunk bs = .error .truncated) ∧
    (∀ bs : List Nat, 18 ≤ bs.length → (le16at bs 0 = ALaw ∨ le16at bs 0 = MuLaw) →
      readFmtChunk bs =
        (if le16at bs 16 ≠ 0 then .error .badCbSize
         else if le16at bs 14 ≠ 8 then .error .badBits
         else .ok (mandatoryOf bs))) ∧
    (∀ bs : List Nat, 16 ≤ bs.length → bs.length < 40 → le16at bs 0 = Extensible →
      readFmtChunk bs = .error .truncated) ∧
    (∀ bs : List Nat, 40 ≤ bs.length → le16at bs 0 = Extensible →
      readFmtChunk bs =
        (if le16at bs 16 ≠ 22 then .error .badExtSize
         else if le16at bs 24 = Extensible then .error .subformatExtensible
         else if ¬(le16at bs 24 = PCM ∨ le16at bs 24 = ALaw ∨ le16at bs 24 = MuLaw ∨
                    le16at bs 24 = IEEEFloat) then .error .subformatUnknown
         else if (bs.drop 26).take 14 ≠ fmtMagic then .error .badMagic
         else .ok (extensibleOf bs))) ∧
    (∀ bs : List Nat, 16 ≤ bs.length →
      ¬(le16at bs 0 = PCM ∨ le16at bs 0 = ALaw ∨ le16at bs 0 = MuLaw ∨
         le16at bs 0 = Extensible) →
      readFmtChunk bs = .error .unknownFormat) := by
  refine ⟨?_, ?_, ?_, ?_, ?_, ?_, ?_⟩
  · intro bs h
    obtain ⟨e, he⟩ := readFull_short 16 bs h
    simp [readFmtChunk, he]
  · intro bs h16 hf
    rw [readFmtChunk_eq bs h16, if_pos hf]
  · intro bs h16 h18 hf
    rw [readFmtChunk_eq bs h16]
    rcases hf with hf | hf <;>
      simp [hf, PCM, ALaw, MuLaw, h18]
  · intro bs h18 hf
    rw [readFmtChunk_eq bs (by omega)]
    rcases hf with hf | hf <;>
      simp [hf, PCM, ALaw, MuLaw, if_neg (by omega : ¬ bs.length < 18)]
  · intro bs h16 h40 hf
    rw [readFmtChunk_eq bs h16]
    simp [hf, PCM, ALaw, MuLaw, Extensible, h40]
  · intro bs h40 hf
    rw [readFmtChunk_eq bs (by omega)]
    simp [hf, PCM, ALaw, MuLaw, Extensible, if_neg (by omega : ¬ bs.length < 40)]
  · intro bs h16 hf
    push_neg at hf
    obtain ⟨h1, h2, h3, h4⟩ := hf
    rw [readFmtChunk_eq bs h16]
    simp [h1, h2, h3, h4]

/-- C6 witness: the spec's linear-PCM example — 2 channels, 44100 Hz, byte
rate 176400, block align 2048, 16 bits — parses to exactly those fields. -/
theorem c6_witness :
    readFmtChunk [1, 0, 2, 0, 68, 172, 0, 0, 16, 177, 2, 0, 0, 8, 16, 0] =
      .ok ⟨1, 2, 44100, 176400, 2048, 16, 0, 0, 0⟩ :=
  c6_readFmtChunk_parse.2.1 [1, 0, 2, 0, 68, 172, 0, 0, 16, 177, 2, 0, 0, 8, 16, 0]
    (by decide) (by decide)

/-! ## Support for C7: properties of the rounding model -/

theorem divInt_num_natAbs_le (a : Int) {b : Int} (hb : b ≠ 0) :
    (Rat.divInt a b).num.natAbs ≤ a.natAbs := by
  by_cases ha : a = 0
  · simp [ha]
  · exact Nat.le_of_dvd (Int.natAbs_pos.mpr ha)
      (Int.natAbs_dvd_natAbs.mpr (Rat.num_dvd a hb))

theorem divInt_den_le (a : Int) {b : Int} (hb : b ≠ 0) :
    (Rat.divInt a b).den ≤ b.natAbs := by
  have h1 : ((Rat.divInt a b).den : ℤ) ∣ b := Rat.den_dvd a b
  have h2 : (Rat.divInt a b).den ∣ b.natAbs := by
    have := Int.dvd_natAbs.mpr h1
    exact_mod_cast this
  exact Nat.le_of_dvd (Int.natAbs_pos.mpr hb) h2

theorem qAdd_def (x y : ℚ) :
    qAdd x y = Rat.divInt (x.num * y.den + y.num * x.den) (x.den * y.den) := by
  rcases x with ⟨a, b, h1, h2⟩; rcases y with ⟨c, d, h3, h4⟩; rfl

theorem qSub_def (x y : ℚ) :
    qSub x y = Rat.divInt (x.num * y.den - y.num * x.den) (x.den * y.den) := by
  rcases x with ⟨a, b, h1, h2⟩; rcases y with ⟨c, d, h3, h4⟩; rfl

theorem qMul_def (x y : ℚ) :
    qMul x y = Rat.divInt (x.num * y.num) (x.den * y.den) := by
  rcases x with ⟨a, b, h1, h2⟩; rcases y with ⟨c, d, h3, h4⟩; rfl

theorem qDiv_def (x y : ℚ) :
    qDiv x y = Rat.divInt (x.num * y.den) (x.den * y.num) := by
  rcases x with ⟨a, b, h1, h2⟩; rcases y with ⟨c, d, h3, h4⟩; rfl

theorem ratTrunc_eq (x : ℚ) : ratTrunc x = x.num.tdiv x.den := by
  rcases x with ⟨a, b, h1, h2⟩; rfl

theorem ratTrunc_neg (x : ℚ) : ratTrunc (-x) = -(ratTrunc x) := by
  rw [ratTrunc_eq, ratTrunc_eq, Rat.neg_num, Rat.neg_den, Int.neg_tdiv]

/-- On an integer rational, truncation is the identity. -/
theorem ratTrunc_intCast (k : Int) : ratTrunc ((k : ℚ)) = k := by
  rw [ratTrunc_eq]
  simp [Rat.intCast_num, Rat.intCast_den, Int.tdiv_one]

theorem rnd_zero (p : Nat) (x : ℚ) (h : x = 0) : rnd p x = 0 := by
  subst h
  rfl

theorem rnd_pos_eq (p : Nat) (x : ℚ) (hx : 0 < x.num) :
    rnd p x = rndN p x.num.toNat x.den := by
  rcases x with ⟨num, den, h1, h2⟩
  cases num with
  | ofNat k =>
    cases k with
    | zero => simp at hx
    | succ j => rfl
  | negSucc j => exact absurd hx (by simp)

theorem ratNeg_eq (x : ℚ) : Rat.neg x = -x := rfl

theorem rnd_neg (p : Nat) (x : ℚ) : rnd p (-x) = -(rnd p x) := by
  rcases x with ⟨num, den, h1, h2⟩
  cases num with
  | ofNat k =>
    cases k with
    | zero =>
      have hden : den = 1 := (Nat.coprime_zero_left den).mp (by simpa using h2)
      subst hden
      have : (-(⟨Int.ofNat 0, 1, h1, h2⟩ : ℚ)) = ⟨Int.ofNat 0, 1, h1, h2⟩ := by
        apply Rat.ext <;> simp [Rat.neg_num, Rat.neg_den]
      rw [this]
      simp [rnd]
    | succ j =>
      have : (-(⟨Int.ofNat (j+1), den, h1, h2⟩ : ℚ)) =
          ⟨Int.negSucc j, den, h1, by simpa using h2⟩ := by
        apply Rat.ext <;> simp [Rat.neg_num, Rat.neg_den, Int.negSucc_eq]
      rw [this]
      rfl
  | negSucc j =>
    have : (-(⟨Int.negSucc j, den, h1, h2⟩ : ℚ)) =
        ⟨Int.ofNat (j+1), den, h1, by simpa using h2⟩ := by
      apply Rat.ext <;> simp [Rat.neg_num, Rat.neg_den, Int.negSucc_eq]
    rw [this]
    show rndN p (j+1) den = -(Rat.neg (rndN p (j+1) den))
    rw [ratNeg_eq, neg_neg]


/-- Correctness of `rndN`: on a positive rational `n / d` it returns
`m * 2 ^ (-t)` where the significand `m` lies in `[2 ^ (p-1), 2 ^ p]`, the
scaled input `(n / d) * 2 ^ t` lies in `[2 ^ (p-1), 2 ^ p)`, the rounding
error is at most half an ulp, and the numerator and denominator of the
result are bounded by the obvious powers of two. -/
theorem rndN_spec (p n d : Nat) (hp : 1 ≤ p) (hp' : p ≤ 60)
    (hn : 1 ≤ n) (hn' : n < 2 ^ 300) (hd : 1 ≤ d) (hd' : d < 2 ^ 300) :
    ∃ (m : ℕ) (t : ℤ),
      rndN p n d = (m : ℚ) * (2 : ℚ) ^ (-t) ∧
      2 ^ (p - 1) ≤ m ∧ m ≤ 2 ^ p ∧
      (2 : ℚ) ^ ((p : ℤ) - 1) ≤ ((n : ℚ) / (d : ℚ)) * (2 : ℚ) ^ t ∧
      ((n : ℚ) / (d : ℚ)) * (2 : ℚ) ^ t < (2 : ℚ) ^ (p : ℤ) ∧
      |rndN p n d - (n : ℚ) / (d : ℚ)| ≤ (1 / 2) * (2 : ℚ) ^ (-t) ∧
      (rndN p n d).num.natAbs ≤ 2 ^ p * 2 ^ (-t).toNat ∧
      (rndN p n d).den ≤ 2 ^ t.toNat := by
  rw [rndN]
  simp only [fN_eq]
  set V := natLog2 n + p + 2 with hV
  set B := d <<< (p - 1 + V) with hB
  set q := (B + n - 1) / n with hq
  set u := (if q ≤ 1 then 0 else natLog2 (q - 1) + 1) with hu
  set D := d <<< V with hD
  set NN := n <<< u with hNN
  set m0 := NN / D with hm0
  set r := NN % D with hr
  set m := (if D < 2 * r then m0 + 1 else if 2 * r < D then m0
      else if m0 % 2 = 0 then m0 else m0 + 1) with hm
  -- shifts as powers
  have hBpow : B = d * 2 ^ (p - 1 + V) := Nat.shiftLeft_eq d _
  have hDpow : D = d * 2 ^ V := Nat.shiftLeft_eq d _
  have hNpow : NN = n * 2 ^ u := Nat.shiftLeft_eq n _
  clear_value m r m0 NN D u q B V
  -- the logarithm of n
  have hlogn := natLog2_spec n hn (lt_trans hn' (by norm_num))
  have hlogn300 : natLog2 n < 300 := by
    by_contra hcon
    push_neg at hcon
    have : (2 : ℕ) ^ 300 ≤ 2 ^ natLog2 n := Nat.pow_le_pow_right (by norm_num) hcon
    omega
  have hnV : n < 2 ^ V := by
    calc n < 2 ^ (natLog2 n + 1) := hlogn.2
    _ ≤ 2 ^ V := Nat.pow_le_pow_right (by norm_num) (by omega)
  -- B dominates n
  have hBn : n < B := by
    calc n < 2 ^ V := hnV
    _ ≤ 2 ^ (p - 1 + V) := Nat.pow_le_pow_right (by norm_num) (by omega)
    _ ≤ d * 2 ^ (p - 1 + V) := Nat.le_mul_of_pos_left _ (by omega)
    _ = B := hBpow.symm
  have hB1 : 1 ≤ B := by omega
  -- q = ceil(B / n) : characterisation
  have hqceil : ∀ k : ℕ, B ≤ n * k ↔ q ≤ k := by
    intro k
    constructor
    · intro hk
      rw [hq]
      have h1 : B + n - 1 ≤ n * k + (n - 1) := by omega
      calc (B + n - 1) / n ≤ (n * k + (n - 1)) / n := Nat.div_le_div_right h1
      _ = k + (n - 1) / n := Nat.mul_add_div (by omega) k (n - 1)
      _ = k := by rw [Nat.div_eq_of_lt (by omega)]; omega
    · intro hk
      have hdm' := Nat.div_add_mod (B + n - 1) n
      have hmod : (B + n - 1) % n < n := Nat.mod_lt _ (by omega)
      have hnq : B ≤ n * q := by
        rw [hq] at *
        omega
      calc B ≤ n * q := hnq
      _ ≤ n * k := Nat.mul_le_mul_left n hk
  have hq2 : 2 ≤ q := by
    rcases Nat.lt_or_ge q 2 with hlt | hge
    · exfalso
      have h1 : B ≤ n * 1 := (hqceil 1).mpr (by omega)
      omega
    · exact hge
  -- bound q for the logarithm fuel
  have hqB : q ≤ B := by
    obtain ⟨a, ha⟩ : ∃ a, B = a + 1 := ⟨B - 1, by omega⟩
    obtain ⟨c, hc⟩ : ∃ c, n = c + 1 := ⟨n - 1, by omega⟩
    have h1 : B + n - 1 ≤ B * n := by
      rw [ha, hc]
      calc a + 1 + (c + 1) - 1 = a + c + 1 := by omega
      _ ≤ a * c + (a + c + 1) := Nat.le_add_left _ _
      _ = (a + 1) * (c + 1) := by ring
    have h2 : B * n / n = B := by
      rw [Nat.mul_div_assoc B (dvd_refl n), Nat.div_self (by omega : 0 < n), Nat.mul_one]
    calc q = (B + n - 1) / n := hq
    _ ≤ B * n / n := Nat.div_le_div_right h1
    _ = B := h2
  have hBbound : B < 2 ^ 721 := by
    have h1 : 2 ^ (p - 1 + V) ≤ 2 ^ 420 := Nat.pow_le_pow_right (by norm_num) (by omega)
    calc B = d * 2 ^ (p - 1 + V) := hBpow
    _ ≤ d * 2 ^ 420 := Nat.mul_le_mul_left d h1
    _ < 2 ^ 300 * 2 ^ 420 := mul_lt_mul_of_pos_right hd' (Nat.pow_pos (by norm_num))
    _ = 2 ^ (300 + 420) := (pow_add 2 300 420).symm
    _ ≤ 2 ^ 721 := Nat.pow_le_pow_right (by norm_num) (by norm_num)
  -- u is the least exponent with q ≤ 2 ^ u
  have hu_eq : u = natLog2 (q - 1) + 1 := by rw [hu, if_neg (by omega)]
  have hlogq := natLog2_spec (q - 1) (by omega) (by
    calc q - 1 < 2 ^ 721 := by omega
    _ < 2 ^ 1000 := Nat.pow_lt_pow_right (by norm_num) (by norm_num))
  have huq : q ≤ 2 ^ u := by
    rw [hu_eq]
    omega
  have huq' : 2 ^ (u - 1) < q := by
    rw [hu_eq]
    simp only [Nat.add_sub_cancel]
    omega
  have hu1 : 1 ≤ u := by rw [hu_eq]; omega
  -- bracketing of NN between B and 2B
  have hBN : B ≤ NN := by
    rw [hNpow]
    exact (hqceil (2 ^ u)).mpr huq
  have hNB2 : NN < 2 * B := by
    have h1 : n * 2 ^ (u - 1) < B := by
      by_contra hcon
      push_neg at hcon
      exact absurd ((hqceil _).mp hcon) (by omega)
    have h2 : n * 2 ^ u = 2 * (n * 2 ^ (u - 1)) := by
      conv_lhs => rw [show u = (u - 1) + 1 from by omega]
      rw [pow_succ]
      ring
    omega
  have hD0 : 0 < D := by
    rw [hDpow]
    exact Nat.mul_pos (by omega) (Nat.pow_pos (by norm_num))
  have hBD : B = D * 2 ^ (p - 1) := by
    rw [hBpow, hDpow, Nat.add_comm (p - 1) V, pow_add]
    ring
  -- significand bounds
  have hm0low : 2 ^ (p - 1) ≤ m0 := by
    rw [hm0, Nat.le_div_iff_mul_le hD0]
    calc 2 ^ (p - 1) * D = D * 2 ^ (p - 1) := by ring
    _ = B := hBD.symm
    _ ≤ NN := hBN
  have hm0high : m0 < 2 ^ p := by
    rw [hm0, Nat.div_lt_iff_lt_mul hD0]
    calc NN < 2 * B := hNB2
    _ = 2 * (D * 2 ^ (p - 1)) := by rw [hBD]
    _ = 2 ^ p * D := by
        conv_rhs => rw [show p = (p - 1) + 1 from by omega]
        ring
  have hdm : NN = D * m0 + r := by
    rw [hm0, hr]
    exact (Nat.div_add_mod NN D).symm
  have hrD : r < D := by
    rw [hr]
    exact Nat.mod_lt _ hD0
  have hkey : (m = m0 ∧ 2 * r ≤ D) ∨ (m = m0 + 1 ∧ D ≤ 2 * r) := by
    rw [hm]
    split_ifs with h1 h2 h3
    · exact Or.inr ⟨rfl, by omega⟩
    · exact Or.inl ⟨rfl, by omega⟩
    · exact Or.inl ⟨rfl, by omega⟩
    · exact Or.inr ⟨rfl, by omega⟩
  have hmlow : 2 ^ (p - 1) ≤ m := by rcases hkey with ⟨h, _⟩ | ⟨h, _⟩ <;> omega
  have hmhigh : m ≤ 2 ^ p := by rcases hkey with ⟨h, _⟩ | ⟨h, _⟩ <;> omega
  -- rational preliminaries
  have hDq : (0 : ℚ) < (D : ℚ) := by exact_mod_cast hD0
  have hdq : (0 : ℚ) < (d : ℚ) := by exact_mod_cast hd
  have hd0 : (d : ℚ) ≠ 0 := ne_of_gt hdq
  have h2V : (2 : ℚ) ^ V ≠ 0 := by positivity
  have hzpow : (2 : ℚ) ^ ((u : ℤ) - (V : ℤ)) = (2 : ℚ) ^ (u : ℤ) / (2 : ℚ) ^ (V : ℤ) :=
    zpow_sub₀ (by norm_num) _ _
  have hxt : ((n : ℚ) / (d : ℚ)) * (2 : ℚ) ^ ((u : ℤ) - (V : ℤ)) = (NN : ℚ) / (D : ℚ) := by
    rw [hzpow, hNpow, hDpow]
    push_cast
    field_simp
  have h2t : (2 : ℚ) ^ ((u : ℤ) - (V : ℤ)) ≠ 0 := by positivity
  have hw : (0 : ℚ) < (2 : ℚ) ^ (-((u : ℤ) - (V : ℤ))) := by positivity
  have hxeq : (n : ℚ) / (d : ℚ) = (NN : ℚ) / (D : ℚ) * (2 : ℚ) ^ (-((u : ℤ) - (V : ℤ))) := by
    rw [← hxt, zpow_neg, mul_assoc, mul_inv_cancel₀ h2t, mul_one]
  -- bracketing in ℚ
  have hppow : (2 : ℚ) ^ ((p : ℤ) - 1) = ((2 ^ (p - 1) : ℕ) : ℚ) := by
    rw [show ((p : ℤ) - 1) = ((p - 1 : ℕ) : ℤ) from by omega, zpow_natCast,
      Nat.cast_pow, Nat.cast_ofNat]
  have hppow2 : (2 : ℚ) ^ ((p : ℤ)) = ((2 ^ p : ℕ) : ℚ) := by
    rw [zpow_natCast, Nat.cast_pow, Nat.cast_ofNat]
  have hBle : 2 ^ (p - 1) * D ≤ NN := by
    rw [Nat.mul_comm, ← hBD]
    exact hBN
  have hNlt : NN < 2 ^ p * D := by
    calc NN < 2 * B := hNB2
    _ = 2 * (D * 2 ^ (p - 1)) := by rw [hBD]
    _ = 2 ^ p * D := by
        conv_rhs => rw [show p = (p - 1) + 1 from by omega]
        ring
  have h4 : (2 : ℚ) ^ ((p : ℤ) - 1) ≤ ((n : ℚ) / (d : ℚ)) * (2 : ℚ) ^ ((u : ℤ) - (V : ℤ)) := by
    rw [hxt, hppow, le_div_iff hDq]
    exact_mod_cast hBle
  have h5 : ((n : ℚ) / (d : ℚ)) * (2 : ℚ) ^ ((u : ℤ) - (V : ℤ)) < (2 : ℚ) ^ (p : ℤ) := by
    rw [hxt, hppow2, div_lt_iff hDq]
    exact_mod_cast hNlt
  -- half-ulp error of the significand
  have hNNq : (NN : ℚ) = (D : ℚ) * (m0 : ℚ) + (r : ℚ) := by exact_mod_cast hdm
  have hdiv : (NN : ℚ) / (D : ℚ) = (m0 : ℚ) + (r : ℚ) / (D : ℚ) := by
    rw [hNNq, add_div, mul_div_cancel_left₀ _ (ne_of_gt hDq)]
  have herr : |(m : ℚ) - (NN : ℚ) / (D : ℚ)| ≤ 1 / 2 := by
    have hr1 : (r : ℚ) / (D : ℚ) ≤ 1 := by
      rw [div_le_one hDq]
      exact_mod_cast le_of_lt hrD
    have hr0 : (0 : ℚ) ≤ (r : ℚ) / (D : ℚ) :=
      div_nonneg (Nat.cast_nonneg r) (Nat.cast_nonneg D)
    rw [abs_le]
    rcases hkey with ⟨hme, hle⟩ | ⟨hme, hle⟩ <;> rw [hme, hdiv] <;> push_cast
    · have hh : (2 * r : ℚ) ≤ (D : ℚ) := by exact_mod_cast hle
      have : (r : ℚ) / (D : ℚ) ≤ 1 / 2 := by
        rw [div_le_iff hDq]
        linarith
      constructor <;> linarith
    · have hh : (D : ℚ) ≤ (2 * r : ℚ) := by exact_mod_cast hle
      have : 1 / 2 ≤ (r : ℚ) / (D : ℚ) := by
        rw [le_div_iff hDq]
        linarith
      constructor <;> linarith
  refine ⟨m, (u : ℤ) - (V : ℤ), ?_⟩
  by_cases huV : u ≤ V
  · rw [if_pos huV, Nat.shiftLeft_eq, Rat.divInt_one]
    have hv : (((m * 2 ^ (V - u) : ℕ) : ℤ) : ℚ) = (m : ℚ) * (2 : ℚ) ^ (-((u : ℤ) - (V : ℤ))) := by
      rw [show -((u : ℤ) - (V : ℤ)) = ((V - u : ℕ) : ℤ) from by omega, zpow_natCast]
      push_cast
      ring
    refine ⟨hv, hmlow, hmhigh, h4, h5, ?_, ?_, ?_⟩
    · rw [hv, hxeq, ← sub_mul, abs_mul, abs_of_pos hw]
      exact mul_le_mul_of_nonneg_right herr hw.le
    · rw [Rat.num_intCast, Int.natAbs_ofNat,
        show (-((u : ℤ) - (V : ℤ))).toNat = V - u from by omega]
      exact Nat.mul_le_mul_right _ hmhigh
    · rw [Rat.den_intCast]
      exact Nat.one_le_two_pow
  · have hbpos : (0 : ℤ) < ((1 <<< (u - V) : ℕ) : ℤ) := by
      rw [Nat.shiftLeft_eq, one_mul]
      exact_mod_cast Nat.pow_pos (by norm_num)
    rw [if_neg huV]
    have hv : Rat.divInt ((m : ℕ) : ℤ) ((1 <<< (u - V) : ℕ) : ℤ) =
        (m : ℚ) * (2 : ℚ) ^ (-((u : ℤ) - (V : ℤ))) := by
      rw [Rat.divInt_eq_div, Nat.shiftLeft_eq, one_mul,
        show -((u : ℤ) - (V : ℤ)) = -(((u - V : ℕ) : ℤ)) from by omega, zpow_neg, zpow_natCast]
      push_cast
      ring
    refine ⟨hv, hmlow, hmhigh, h4, h5, ?_, ?_, ?_⟩
    · rw [hv, hxeq, ← sub_mul, abs_mul, abs_of_pos hw]
      exact mul_le_mul_of_nonneg_right herr hw.le
    · calc (Rat.divInt ((m : ℕ) : ℤ) ((1 <<< (u - V) : ℕ) : ℤ)).num.natAbs
          ≤ ((m : ℕ) : ℤ).natAbs := divInt_num_natAbs_le _ (ne_of_gt hbpos)
      _ = m := Int.natAbs_ofNat m
      _ ≤ 2 ^ p := hmhigh
      _ ≤ 2 ^ p * 2 ^ ((-((u : ℤ) - (V : ℤ))).toNat) :=
          Nat.le_mul_of_pos_right _ (Nat.pow_pos (by norm_num))
    · calc (Rat.divInt ((m : ℕ) : ℤ) ((1 <<< (u - V) : ℕ) : ℤ)).den
          ≤ ((1 <<< (u - V) : ℕ) : ℤ).natAbs := divInt_den_le _ (ne_of_gt hbpos)
      _ = 2 ^ (u - V) := by rw [Nat.shiftLeft_eq, one_mul]; exact Int.natAbs_ofNat _
      _ = 2 ^ (((u : ℤ) - (V : ℤ)).toNat) := by
          rw [show ((u : ℤ) - (V : ℤ)).toNat = u - V from by omega]

theorem rnd_spec_pos (p : Nat) (hp : 1 ≤ p) (hp' : p ≤ 60) (x : ℚ) (hx : 0 < x)
    (hnum : x.num.natAbs < 2 ^ 300) (hden : x.den < 2 ^ 300) :
    ∃ (m : ℕ) (t : ℤ),
      rnd p x = (m : ℚ) * (2 : ℚ) ^ (-t) ∧
      2 ^ (p - 1) ≤ m ∧ m ≤ 2 ^ p ∧
      (2 : ℚ) ^ ((p : ℤ) - 1) ≤ x * (2 : ℚ) ^ t ∧
      x * (2 : ℚ) ^ t < (2 : ℚ) ^ (p : ℤ) ∧
      |rnd p x - x| ≤ (1 / 2) * (2 : ℚ) ^ (-t) ∧
      (rnd p x).num.natAbs ≤ 2 ^ p * 2 ^ (-t).toNat ∧
      (rnd p x).den ≤ 2 ^ t.toNat := by
  have hxnum : 0 < x.num := Rat.num_pos.mpr hx
  have hval : ((x.num.toNat : ℚ)) / ((x.den : ℚ)) = x := by
    have h1 : ((x.num.toNat : ℤ)) = x.num := Int.toNat_of_nonneg hxnum.le
    rw [show ((x.num.toNat : ℚ)) = ((x.num : ℚ)) from by exact_mod_cast congrArg (fun z : ℤ => (z : ℚ)) h1]
    exact Rat.num_div_den x
  obtain ⟨m, t, h⟩ := rndN_spec p x.num.toNat x.den hp hp'
    (by omega) (by omega) x.pos (by omega)
  rw [hval] at h
  rw [rnd_pos_eq p x hxnum]
  exact ⟨m, t, h⟩

theorem bracket_lt_aux (p : Nat) (x : ℚ) (hx : 0 < x) (s t : ℤ) (hst : s < t)
    (hs1 : (2 : ℚ) ^ ((p : ℤ) - 1) ≤ x * (2 : ℚ) ^ s)
    (ht2 : x * (2 : ℚ) ^ t < (2 : ℚ) ^ (p : ℤ)) : False := by
  have h2 : (2 : ℚ) ≤ 2 ^ (t - s) := by
    calc (2 : ℚ) = 2 ^ (1 : ℤ) := (zpow_one 2).symm
    _ ≤ 2 ^ (t - s) := zpow_le_zpow_right₀ (by norm_num) (by omega)
  have h3 : x * (2 : ℚ) ^ t = (x * (2 : ℚ) ^ s) * (2 : ℚ) ^ (t - s) := by
    rw [mul_assoc, ← zpow_add₀ (by norm_num : (2 : ℚ) ≠ 0),
      show s + (t - s) = t from by omega]
  have hxs : (0 : ℚ) < x * (2 : ℚ) ^ s := by positivity
  have hps : (2 : ℚ) ^ (p : ℤ) = 2 ^ ((p : ℤ) - 1) * 2 := by
    rw [← zpow_add_one₀ (by norm_num : (2 : ℚ) ≠ 0),
      show (p : ℤ) - 1 + 1 = (p : ℤ) from by omega]
  have h4 : (2 : ℚ) ^ (p : ℤ) ≤ x * (2 : ℚ) ^ t := by
    calc (2 : ℚ) ^ (p : ℤ) = 2 ^ ((p : ℤ) - 1) * 2 := hps
    _ ≤ (x * (2 : ℚ) ^ s) * (2 : ℚ) ^ (t - s) :=
        mul_le_mul hs1 h2 (by norm_num) hxs.le
    _ = x * (2 : ℚ) ^ t := h3.symm
  linarith

theorem bracket_unique (p : Nat) (x : ℚ) (hx : 0 < x) (s t : ℤ)
    (hs1 : (2 : ℚ) ^ ((p : ℤ) - 1) ≤ x * (2 : ℚ) ^ s)
    (hs2 : x * (2 : ℚ) ^ s < (2 : ℚ) ^ (p : ℤ))
    (ht1 : (2 : ℚ) ^ ((p : ℤ) - 1) ≤ x * (2 : ℚ) ^ t)
    (ht2 : x * (2 : ℚ) ^ t < (2 : ℚ) ^ (p : ℤ)) : s = t := by
  rcases lt_trichotomy s t with h | h | h
  · exact absurd (bracket_lt_aux p x hx s t h hs1 ht2) (not_false)
  · exact h
  · exact absurd (bracket_lt_aux p x hx t s h ht1 hs2) (not_false)

theorem mantissa_eq (m k : ℕ) (t : ℤ)
    (h : |(m : ℚ) * (2 : ℚ) ^ (-t) - (k : ℚ) * (2 : ℚ) ^ (-t)| < (2 : ℚ) ^ (-t)) :
    m = k := by
  have hw : (0 : ℚ) < (2 : ℚ) ^ (-t) := by positivity
  rw [← sub_mul, abs_mul, abs_of_pos hw] at h
  have h2 : |(m : ℚ) - (k : ℚ)| < 1 := by
    nlinarith [abs_nonneg ((m : ℚ) - (k : ℚ))]
  rw [abs_lt] at h2
  have h3 : (-1 : ℤ) < (m : ℤ) - (k : ℤ) := by exact_mod_cast h2.1
  have h4 : ((m : ℤ) - (k : ℤ)) < 1 := by exact_mod_cast h2.2
  omega

theorem mul_num_natAbs_le (a b : ℚ) :
    (a * b).num.natAbs ≤ a.num.natAbs * b.num.natAbs := by
  have hne : ((a.den : ℤ) * (b.den : ℤ)) ≠ 0 := by
    exact_mod_cast (Nat.mul_pos a.pos b.pos).ne'
  calc (a * b).num.natAbs
      = (Rat.divInt (a.num * b.num) ((a.den : ℤ) * (b.den : ℤ))).num.natAbs := by
        rw [← qMul_eq a b, qMul_def]
  _ ≤ (a.num * b.num).natAbs := divInt_num_natAbs_le _ hne
  _ = a.num.natAbs * b.num.natAbs := Int.natAbs_mul _ _

theorem mul_den_le (a b : ℚ) : (a * b).den ≤ a.den * b.den := by
  have hne : ((a.den : ℤ) * (b.den : ℤ)) ≠ 0 := by
    exact_mod_cast (Nat.mul_pos a.pos b.pos).ne'
  calc (a * b).den
      = (Rat.divInt (a.num * b.num) ((a.den : ℤ) * (b.den : ℤ))).den := by
        rw [← qMul_eq a b, qMul_def]
  _ ≤ ((a.den : ℤ) * (b.den : ℤ)).natAbs := divInt_den_le _ hne
  _ = a.den * b.den := by rw [Int.natAbs_mul, Int.natAbs_ofNat, Int.natAbs_ofNat]

set_option maxRecDepth 10000 in
set_option maxHeartbeats 2000000 in
/-- Core of the 16-bit-to-float32 round trip, for a positive sample that is
neither a power of two nor 32767: decoding `i` to `i / 32767`, rounding,
multiplying by 32767 and rounding again, then truncating, recovers `i`. -/
theorem c7_inner (i e : ℕ) (he : e ≤ 14)
    (h1 : 2 ^ e < i) (h2 : i < 2 ^ (e + 1)) (h3 : i ≤ 32766) :
    ratTrunc (f32mul (from16PCMToFloat32 ((i : ℕ) : ℤ)) (Rat.divInt 32767 1))
      = ((i : ℕ) : ℤ) := by
  have h2q : (2 : ℚ) ≠ 0 := by norm_num
  have hc : Rat.divInt 32767 1 = ((32767 : ℤ) : ℚ) := Rat.divInt_one _
  have hXval : qDiv (((i : ℕ) : ℤ) : ℚ) (Rat.divInt 32767 1) = (i : ℚ) / 32767 := by
    rw [qDiv_eq, hc]
    push_cast
    ring
  have hstage1 : from16PCMToFloat32 ((i : ℕ) : ℤ) = rnd 24 ((i : ℚ) / 32767) := by
    show rnd 24 (qDiv (((i : ℕ) : ℤ) : ℚ) (Rat.divInt 32767 1)) = _
    rw [hXval]
  have hipos : (0 : ℚ) < (i : ℚ) := by exact_mod_cast (show 0 < i by omega)
  have hX0 : (0 : ℚ) < (i : ℚ) / 32767 := div_pos hipos (by norm_num)
  have hXdi : (i : ℚ) / 32767 = Rat.divInt ((i : ℕ) : ℤ) 32767 := by
    rw [Rat.divInt_eq_div]
    push_cast
    ring
  have hXnum : ((i : ℚ) / 32767).num.natAbs < 2 ^ 300 := by
    have hb := divInt_num_natAbs_le ((i : ℕ) : ℤ) (show (32767 : ℤ) ≠ 0 by norm_num)
    rw [← hXdi] at hb
    have : (((i : ℕ) : ℤ)).natAbs = i := Int.natAbs_ofNat i
    calc ((i : ℚ) / 32767).num.natAbs ≤ (((i : ℕ) : ℤ)).natAbs := hb
    _ = i := this
    _ < 2 ^ 300 := by
        calc i ≤ 32766 := h3
        _ < 2 ^ 300 := by norm_num
  have hXden : ((i : ℚ) / 32767).den < 2 ^ 300 := by
    have hb := divInt_den_le ((i : ℕ) : ℤ) (show (32767 : ℤ) ≠ 0 by norm_num)
    rw [← hXdi] at hb
    calc ((i : ℚ) / 32767).den ≤ (32767 : ℤ).natAbs := hb
    _ < 2 ^ 300 := by norm_num
  obtain ⟨m, t, hv, hm1, hm2, hb1, hb2, herr, hnumb, hdenb⟩ :=
    rnd_spec_pos 24 (by norm_num) (by norm_num) ((i : ℚ) / 32767) hX0 hXnum hXden
  -- the scale of i / 32767 is 38 - e
  have hN1 : 32767 * 2 ^ 23 ≤ i * 2 ^ (38 - e) := by
    calc 32767 * 2 ^ 23 ≤ 2 ^ 38 := by norm_num
    _ = 2 ^ e * 2 ^ (38 - e) := by rw [← pow_add, show e + (38 - e) = 38 from by omega]
    _ ≤ i * 2 ^ (38 - e) := Nat.mul_le_mul_right _ (le_of_lt h1)
  have hN2 : i * 2 ^ (38 - e) < 32767 * 2 ^ 24 := by
    rcases Nat.lt_or_ge e 14 with he' | he'
    · have hA : 2 ^ (e + 1) * 2 ^ (38 - e) = 2 ^ 39 := by
        rw [← pow_add, show (e + 1) + (38 - e) = 39 from by omega]
      have hA25 : 2 ^ 25 ≤ 2 ^ (38 - e) := Nat.pow_le_pow_right (by norm_num) (by omega)
      have hle : i * 2 ^ (38 - e) ≤ (2 ^ (e + 1) - 1) * 2 ^ (38 - e) :=
        Nat.mul_le_mul_right _ (by omega)
      have hsub : (2 ^ (e + 1) - 1) * 2 ^ (38 - e)
          = 2 ^ (e + 1) * 2 ^ (38 - e) - 1 * 2 ^ (38 - e) := Nat.sub_mul _ _ _
      have h39 : (2 : ℕ) ^ 39 = 32767 * 2 ^ 24 + 2 ^ 24 := by norm_num
      omega
    · have h14 : e = 14 := by omega
      subst h14
      have h24 : (38 : ℕ) - 14 = 24 := by norm_num
      rw [h24]
      have : (2 : ℕ) ^ 24 > 0 := by positivity
      calc i * 2 ^ 24 ≤ 32766 * 2 ^ 24 := Nat.mul_le_mul_right _ h3
      _ < 32767 * 2 ^ 24 := by omega
  have hpow38 : (2 : ℚ) ^ ((38 : ℤ) - (e : ℤ)) = ((2 ^ (38 - e) : ℕ) : ℚ) := by
    rw [show ((38 : ℤ) - (e : ℤ)) = ((38 - e : ℕ) : ℤ) from by omega, zpow_natCast,
      Nat.cast_pow, Nat.cast_ofNat]
  have hb1' : (2 : ℚ) ^ (((24 : ℕ) : ℤ) - 1) ≤ ((i : ℚ) / 32767) * (2 : ℚ) ^ ((38 : ℤ) - (e : ℤ)) := by
    have h24a : (2 : ℚ) ^ (((24 : ℕ) : ℤ) - 1) = ((32767 * 2 ^ 23 : ℕ) : ℚ) / 32767 := by
      push_cast
      norm_num
    rw [h24a, hpow38, div_mul_eq_mul_div, div_le_div_iff (by norm_num) (by norm_num)]
    have hcast : ((32767 * 2 ^ 23 : ℕ) : ℚ) ≤ ((i * 2 ^ (38 - e) : ℕ) : ℚ) := by
      exact_mod_cast hN1
    push_cast at hcast ⊢
    nlinarith [hcast]
  have hb2' : ((i : ℚ) / 32767) * (2 : ℚ) ^ ((38 : ℤ) - (e : ℤ)) < (2 : ℚ) ^ ((24 : ℕ) : ℤ) := by
    have h24b : (2 : ℚ) ^ (((24 : ℕ)) : ℤ) = ((32767 * 2 ^ 24 : ℕ) : ℚ) / 32767 := by
      push_cast
      norm_num
    rw [h24b, hpow38, div_mul_eq_mul_div, div_lt_div_iff (by norm_num) (by norm_num)]
    have hcast : ((i * 2 ^ (38 - e) : ℕ) : ℚ) < ((32767 * 2 ^ 24 : ℕ) : ℚ) := by
      exact_mod_cast hN2
    push_cast at hcast ⊢
    nlinarith [hcast]
  have hteq : t = (38 : ℤ) - (e : ℤ) :=
    bracket_unique 24 ((i : ℚ) / 32767) hX0 t ((38 : ℤ) - (e : ℤ)) hb1 hb2 hb1' hb2'
  -- the product with 32767 and its distance to i
  have hZval : qMul (rnd 24 ((i : ℚ) / 32767)) (Rat.divInt 32767 1)
      = rnd 24 ((i : ℚ) / 32767) * 32767 := by
    rw [qMul_eq, hc]
    norm_num
  have hzc : |rnd 24 ((i : ℚ) / 32767) * 32767 - (i : ℚ)| < (2 : ℚ) ^ ((e : ℤ) - 24) := by
    have h0 : (i : ℚ) / 32767 * 32767 = (i : ℚ) := by
      field_simp
    have habs : |rnd 24 ((i : ℚ) / 32767) * 32767 - (i : ℚ)|
        = |rnd 24 ((i : ℚ) / 32767) - (i : ℚ) / 32767| * 32767 := by
      rw [show rnd 24 ((i : ℚ) / 32767) * 32767 - (i : ℚ)
          = (rnd 24 ((i : ℚ) / 32767) - (i : ℚ) / 32767) * 32767 from by rw [sub_mul, h0],
        abs_mul, abs_of_pos (by norm_num : (0 : ℚ) < 32767)]
    have hfac : (1 / 2) * (2 : ℚ) ^ ((e : ℤ) - 38) * 32767 < (2 : ℚ) ^ ((e : ℤ) - 24) := by
      have hsplit : (2 : ℚ) ^ ((e : ℤ) - 24) = (2 : ℚ) ^ ((e : ℤ) - 38) * (2 : ℚ) ^ (14 : ℤ) := by
        rw [← zpow_add₀ h2q, show (e : ℤ) - 38 + 14 = (e : ℤ) - 24 from by omega]
      rw [hsplit]
      have hpos : (0 : ℚ) < (2 : ℚ) ^ ((e : ℤ) - 38) := by positivity
      have h14v : ((2 : ℚ) ^ (14 : ℤ)) = 16384 := by norm_num
      rw [h14v]
      nlinarith
    have herr' : |rnd 24 ((i : ℚ) / 32767) - (i : ℚ) / 32767|
        ≤ (1 / 2) * (2 : ℚ) ^ ((e : ℤ) - 38) := by
      have := herr
      rw [hteq, show -((38 : ℤ) - (e : ℤ)) = (e : ℤ) - 38 from by omega] at this
      exact this
    calc |rnd 24 ((i : ℚ) / 32767) * 32767 - (i : ℚ)|
        = |rnd 24 ((i : ℚ) / 32767) - (i : ℚ) / 32767| * 32767 := habs
    _ ≤ ((1 / 2) * (2 : ℚ) ^ ((e : ℤ) - 38)) * 32767 :=
        mul_le_mul_of_nonneg_right herr' (by norm_num)
    _ < (2 : ℚ) ^ ((e : ℤ) - 24) := hfac
  -- positivity and size bounds of the product
  have hv0 : (0 : ℚ) < rnd 24 ((i : ℚ) / 32767) := by
    rw [hv]
    apply mul_pos _ (by positivity)
    exact_mod_cast (show 0 < m by omega)
  have hZ0 : (0 : ℚ) < rnd 24 ((i : ℚ) / 32767) * 32767 := by positivity
  have hZnum : (rnd 24 ((i : ℚ) / 32767) * 32767).num.natAbs < 2 ^ 300 := by
    have hnb : (rnd 24 ((i : ℚ) / 32767)).num.natAbs ≤ 2 ^ 24 := by
      have := hnumb
      rw [hteq, show (-((38 : ℤ) - (e : ℤ))).toNat = 0 from by omega] at this
      simpa using this
    calc (rnd 24 ((i : ℚ) / 32767) * 32767).num.natAbs
        ≤ (rnd 24 ((i : ℚ) / 32767)).num.natAbs * (32767 : ℚ).num.natAbs :=
          mul_num_natAbs_le _ _
    _ ≤ 2 ^ 24 * (32767 : ℚ).num.natAbs := Nat.mul_le_mul_right _ hnb
    _ < 2 ^ 300 := by norm_num [Rat.num_ofNat]
  have hZden : (rnd 24 ((i : ℚ) / 32767) * 32767).den < 2 ^ 300 := by
    have hdb : (rnd 24 ((i : ℚ) / 32767)).den ≤ 2 ^ 38 := by
      have := hdenb
      rw [hteq, show (((38 : ℤ) - (e : ℤ))).toNat = 38 - e from by omega] at this
      calc (rnd 24 ((i : ℚ) / 32767)).den ≤ 2 ^ (38 - e) := this
      _ ≤ 2 ^ 38 := Nat.pow_le_pow_right (by norm_num) (by omega)
    calc (rnd 24 ((i : ℚ) / 32767) * 32767).den
        ≤ (rnd 24 ((i : ℚ) / 32767)).den * (32767 : ℚ).den := mul_den_le _ _
    _ ≤ 2 ^ 38 * (32767 : ℚ).den := Nat.mul_le_mul_right _ hdb
    _ < 2 ^ 300 := by norm_num [Rat.den_ofNat]
  obtain ⟨m2, s, hv2, hm21, hm22, hbz1, hbz2, herr2, _, _⟩ :=
    rnd_spec_pos 24 (by norm_num) (by norm_num) (rnd 24 ((i : ℚ) / 32767) * 32767) hZ0 hZnum hZden
  -- the scale of the product is 23 - e
  have hEnat : (2 : ℚ) ^ ((e : ℤ)) = ((2 ^ e : ℕ) : ℚ) := by
    rw [zpow_natCast, Nat.cast_pow, Nat.cast_ofNat]
  have hi1 : (2 : ℚ) ^ ((e : ℤ)) + 1 ≤ (i : ℚ) := by
    rw [hEnat]
    exact_mod_cast (show 2 ^ e + 1 ≤ i by omega)
  have hi2 : (i : ℚ) + 1 ≤ 2 * (2 : ℚ) ^ ((e : ℤ)) := by
    rw [hEnat]
    have hn : i + 1 ≤ 2 * 2 ^ e := by
      have hx := h2
      rw [pow_succ] at hx
      omega
    exact_mod_cast hn
  have hEA : (2 : ℚ) ^ ((e : ℤ)) * (2 : ℚ) ^ ((23 : ℤ) - (e : ℤ)) = 8388608 := by
    rw [← zpow_add₀ h2q, show (e : ℤ) + ((23 : ℤ) - (e : ℤ)) = 23 from by omega]
    norm_num
  have hhalf : (2 : ℚ) ^ ((e : ℤ) - 24) * (2 : ℚ) ^ ((23 : ℤ) - (e : ℤ)) = 1 / 2 := by
    rw [← zpow_add₀ h2q, show (e : ℤ) - 24 + ((23 : ℤ) - (e : ℤ)) = -1 from by omega]
    norm_num
  have hA512 : (512 : ℚ) ≤ (2 : ℚ) ^ ((23 : ℤ) - (e : ℤ)) := by
    calc (512 : ℚ) = 2 ^ (9 : ℤ) := by norm_num
    _ ≤ (2 : ℚ) ^ ((23 : ℤ) - (e : ℤ)) := zpow_le_zpow_right₀ (by norm_num) (by omega)
  have hApos : (0 : ℚ) < (2 : ℚ) ^ ((23 : ℤ) - (e : ℤ)) := by positivity
  have hzlo : (i : ℚ) - (2 : ℚ) ^ ((e : ℤ) - 24) < rnd 24 ((i : ℚ) / 32767) * 32767 := by
    have := (abs_lt.mp hzc).1
    linarith
  have hzhi : rnd 24 ((i : ℚ) / 32767) * 32767 < (i : ℚ) + (2 : ℚ) ^ ((e : ℤ) - 24) := by
    have := (abs_lt.mp hzc).2
    linarith
  have hbz1' : (2 : ℚ) ^ (((24 : ℕ) : ℤ) - 1)
      ≤ (rnd 24 ((i : ℚ) / 32767) * 32767) * (2 : ℚ) ^ ((23 : ℤ) - (e : ℤ)) := by
    have h24a : (2 : ℚ) ^ (((24 : ℕ) : ℤ) - 1) = 8388608 := by norm_num
    rw [h24a]
    nlinarith [mul_lt_mul_of_pos_right hzlo hApos, mul_le_mul_of_nonneg_right hi1 hApos.le,
      hEA, hhalf, hA512]
  have hbz2' : (rnd 24 ((i : ℚ) / 32767) * 32767) * (2 : ℚ) ^ ((23 : ℤ) - (e : ℤ))
      < (2 : ℚ) ^ ((24 : ℕ) : ℤ) := by
    have h24b : (2 : ℚ) ^ (((24 : ℕ)) : ℤ) = 16777216 := by norm_num
    rw [h24b]
    nlinarith [mul_lt_mul_of_pos_right hzhi hApos, mul_le_mul_of_nonneg_right hi2 hApos.le,
      hEA, hhalf, hA512]
  have hseq : s = (23 : ℤ) - (e : ℤ) :=
    bracket_unique 24 (rnd 24 ((i : ℚ) / 32767) * 32767) hZ0 s ((23 : ℤ) - (e : ℤ))
      hbz1 hbz2 hbz1' hbz2'
  -- exact recovery of i
  have hp23 : ((2 ^ (23 - e) : ℕ) : ℚ) = (2 : ℚ) ^ ((23 : ℤ) - (e : ℤ)) := by
    rw [show ((23 : ℤ) - (e : ℤ)) = ((23 - e : ℕ) : ℤ) from by omega, zpow_natCast,
      Nat.cast_pow, Nat.cast_ofNat]
  have hrepr : ((i * 2 ^ (23 - e) : ℕ) : ℚ) * (2 : ℚ) ^ (-((23 : ℤ) - (e : ℤ))) = (i : ℚ) := by
    rw [Nat.cast_mul, hp23, zpow_neg, mul_assoc, mul_inv_cancel₀ (by positivity), mul_one]
  have hy' : rnd 24 (rnd 24 ((i : ℚ) / 32767) * 32767)
      = (m2 : ℚ) * (2 : ℚ) ^ (-((23 : ℤ) - (e : ℤ))) := by
    rw [hv2, hseq]
  have hfinal : |rnd 24 (rnd 24 ((i : ℚ) / 32767) * 32767) - (i : ℚ)|
      < (2 : ℚ) ^ (-((23 : ℤ) - (e : ℤ))) := by
    have herr2' : |rnd 24 (rnd 24 ((i : ℚ) / 32767) * 32767)
        - rnd 24 ((i : ℚ) / 32767) * 32767|
        ≤ (1 / 2) * (2 : ℚ) ^ (-((23 : ℤ) - (e : ℤ))) := by
      have := herr2
      rw [hseq] at this
      exact this
    have h3' : (2 : ℚ) ^ ((e : ℤ) - 24) = (1 / 2) * (2 : ℚ) ^ (-((23 : ℤ) - (e : ℤ))) := by
      rw [show -((23 : ℤ) - (e : ℤ)) = (e : ℤ) - 23 from by omega,
        show ((e : ℤ) - 24) = (-1) + ((e : ℤ) - 23) from by omega, zpow_add₀ h2q]
      norm_num
    calc |rnd 24 (rnd 24 ((i : ℚ) / 32767) * 32767) - (i : ℚ)|
        ≤ |rnd 24 (rnd 24 ((i : ℚ) / 32767) * 32767) - rnd 24 ((i : ℚ) / 32767) * 32767|
          + |rnd 24 ((i : ℚ) / 32767) * 32767 - (i : ℚ)| := abs_sub_le _ _ _
    _ < (1 / 2) * (2 : ℚ) ^ (-((23 : ℤ) - (e : ℤ)))
          + (1 / 2) * (2 : ℚ) ^ (-((23 : ℤ) - (e : ℤ))) := by
        have := hzc
        rw [h3'] at this
        exact add_lt_add_of_le_of_lt herr2' this
    _ = (2 : ℚ) ^ (-((23 : ℤ) - (e : ℤ))) := by ring
  have hm2eq : m2 = i * 2 ^ (23 - e) := by
    apply mantissa_eq m2 (i * 2 ^ (23 - e)) ((23 : ℤ) - (e : ℤ))
    rw [hrepr, ← hy']
    exact hfinal
  have hZi : rnd 24 (rnd 24 ((i : ℚ) / 32767) * 32767) = (i : ℚ) := by
    rw [hy', hm2eq, hrepr]
  -- assemble
  have htr : ratTrunc ((i : ℚ)) = ((i : ℕ) : ℤ) := by
    have hcast : ((i : ℚ)) = ((((i : ℕ) : ℤ)) : ℚ) := by push_cast; ring
    rw [hcast, ratTrunc_intCast]
  rw [hstage1]
  show ratTrunc (rnd 24 (qMul (rnd 24 ((i : ℚ) / 32767)) (Rat.divInt 32767 1))) = ((i : ℕ) : ℤ)
  rw [hZval, hZi]
  exact htr

theorem c7_pos16 (i e : ℕ) (he : e ≤ 14)
    (h1 : 2 ^ e < i) (h2 : i < 2 ^ (e + 1)) (h3 : i ≤ 32766) :
    fromFloat32To16PCM (from16PCMToFloat32 ((i : ℕ) : ℤ)) = ((i : ℕ) : ℤ) := by
  show wrap16 (ratTrunc (f32mul (from16PCMToFloat32 ((i : ℕ) : ℤ)) (Rat.divInt 32767 1)))
      = ((i : ℕ) : ℤ)
  rw [c7_inner i e he h1 h2 h3, wrap16]
  omega

theorem c7_neg16 (i e : ℕ) (he : e ≤ 14)
    (h1 : 2 ^ e < i) (h2 : i < 2 ^ (e + 1)) (h3 : i ≤ 32766) :
    fromFloat32To16PCM (from16PCMToFloat32 (-((i : ℕ) : ℤ))) = -((i : ℕ) : ℤ) := by
  have hneg : from16PCMToFloat32 (-((i : ℕ) : ℤ)) = -(from16PCMToFloat32 ((i : ℕ) : ℤ)) := by
    show rnd 24 (qDiv ((-((i : ℕ) : ℤ)) : ℚ) (Rat.divInt 32767 1))
        = -(rnd 24 (qDiv (((i : ℕ) : ℤ) : ℚ) (Rat.divInt 32767 1)))
    have hq : qDiv ((-((i : ℕ) : ℤ)) : ℚ) (Rat.divInt 32767 1)
        = -(qDiv (((i : ℕ) : ℤ) : ℚ) (Rat.divInt 32767 1)) := by
      rw [qDiv_eq, qDiv_eq]
      push_cast
      ring
    rw [hq, rnd_neg]
  show wrap16 (ratTrunc (f32mul (from16PCMToFloat32 (-((i : ℕ) : ℤ))) (Rat.divInt 32767 1)))
      = -((i : ℕ) : ℤ)
  rw [hneg]
  have hmulneg : f32mul (-(from16PCMToFloat32 ((i : ℕ) : ℤ))) (Rat.divInt 32767 1)
      = -(f32mul (from16PCMToFloat32 ((i : ℕ) : ℤ)) (Rat.divInt 32767 1)) := by
    show rnd 24 (qMul (-(from16PCMToFloat32 ((i : ℕ) : ℤ))) (Rat.divInt 32767 1))
        = -(rnd 24 (qMul (from16PCMToFloat32 ((i : ℕ) : ℤ)) (Rat.divInt 32767 1)))
    have hq : qMul (-(from16PCMToFloat32 ((i : ℕ) : ℤ))) (Rat.divInt 32767 1)
        = -(qMul (from16PCMToFloat32 ((i : ℕ) : ℤ)) (Rat.divInt 32767 1)) := by
      rw [qMul_eq, qMul_eq]
      ring
    rw [hq, rnd_neg]
  rw [hmulneg, ratTrunc_neg, c7_inner i e he h1 h2 h3, wrap16]
  omega

set_option maxRecDepth 100000 in
theorem c7_16float_nonneg (n : ℕ) (hn : n ≤ 32767) :
    fromFloat32To16PCM (from16PCMToFloat32 ((n : ℕ) : ℤ)) = ((n : ℕ) : ℤ) := by
  rcases Nat.eq_zero_or_pos n with h0 | hpos
  · subst h0
    decide
  rcases Nat.lt_or_ge n 32767 with hlt | hge
  swap
  · have h32 : n = 32767 := by omega
    subst h32
    decide
  obtain ⟨e, he1, he2⟩ : ∃ e, 2 ^ e ≤ n ∧ n < 2 ^ (e + 1) :=
    ⟨natLog2 n, natLog2_spec n hpos (by
      calc n < 2 ^ 15 := by omega
      _ < 2 ^ 1000 := Nat.pow_lt_pow_right (by norm_num) (by norm_num))⟩
  have he14 : e ≤ 14 := by
    by_contra hcon
    push_neg at hcon
    have : 2 ^ 15 ≤ 2 ^ e := Nat.pow_le_pow_right (by norm_num) (by omega)
    omega
  rcases Nat.lt_or_ge (2 ^ e) n with hstrict | heq
  · exact c7_pos16 n e he14 hstrict he2 (by omega)
  · have hn2 : n = 2 ^ e := by omega
    subst hn2
    interval_cases e <;> decide

set_option maxRecDepth 100000 in
theorem c7_16float_neg (n : ℕ) (h1 : 1 ≤ n) (hn : n ≤ 32767) :
    fromFloat32To16PCM (from16PCMToFloat32 (-((n : ℕ) : ℤ))) = -((n : ℕ) : ℤ) := by
  rcases Nat.lt_or_ge n 32767 with hlt | hge
  swap
  · have h32 : n = 32767 := by omega
    subst h32
    decide
  obtain ⟨e, he1, he2⟩ : ∃ e, 2 ^ e ≤ n ∧ n < 2 ^ (e + 1) :=
    ⟨natLog2 n, natLog2_spec n h1 (by
      calc n < 2 ^ 15 := by omega
      _ < 2 ^ 1000 := Nat.pow_lt_pow_right (by norm_num) (by norm_num))⟩
  have he14 : e ≤ 14 := by
    by_contra hcon
    push_neg at hcon
    have : 2 ^ 15 ≤ 2 ^ e := Nat.pow_le_pow_right (by norm_num) (by omega)
    omega
  rcases Nat.lt_or_ge (2 ^ e) n with hstrict | heq
  · exact c7_neg16 n e he14 hstrict he2 (by omega)
  · have hn2 : n = 2 ^ e := by omega
    subst hn2
    interval_cases e <;> decide

set_option maxRecDepth 100000 in
theorem c7_float32_16 (i : ℤ) (hlo : -32768 ≤ i) (hhi : i ≤ 32767) :
    fromFloat32To16PCM (from16PCMToFloat32 i) = i := by
  rcases Int.le_or_lt 0 i with hpos | hneg
  · obtain ⟨n, rfl⟩ : ∃ n : ℕ, i = ((n : ℕ) : ℤ) := ⟨i.toNat, (Int.toNat_of_nonneg hpos).symm⟩
    exact c7_16float_nonneg n (by omega)
  · rcases Int.lt_or_le i (-32767) with hx | hx
    · have h32 : i = -32768 := by omega
      subst h32
      decide
    · obtain ⟨n, rfl⟩ : ∃ n : ℕ, i = -((n : ℕ) : ℤ) := ⟨(-i).toNat, by omega⟩
      exact c7_16float_neg n (by omega) (by omega)

theorem c7_24_16 (i : ℤ) (hlo : -32768 ≤ i) (hhi : i ≤ 32767) :
    from24PCMTo16PCM (from16PCMTo24PCM i) = i := by
  rw [from16PCMTo24PCM, from24PCMTo16PCM, wrap32]
  have hmod : (i * 256 + 2147483648) % 4294967296 - 2147483648 = i * 256 := by omega
  rw [hmod, Int.mul_fdiv_cancel i (by norm_num), wrap16]
  omega

set_option maxRecDepth 1000000 in
set_option maxHeartbeats 40000000 in
theorem c7_8bit : ∀ b : ℕ, b < 256 →
    from16PCMTo8PCM (from8PCMTo16PCM b) = b ∧
    from24PCMTo8PCM (from8PCMTo24PCM b) = b ∧
    fromFloat32To8PCM (from8PCMToFloat32 b) = b ∧
    fromFloat64To8PCM (from8PCMToFloat64 b) = b := by
  decide

/-- C7: every 8-bit offset sample value (all 256) round-trips exactly through
the 16-bit PCM, 24-bit PCM, float32 and float64 conversion pairs, and every
16-bit PCM value (all 65536) round-trips exactly through the 24-bit PCM and
float32 conversion pairs of the matrix. -/
theorem c7_sample_roundtrips_exact :
    (∀ b : ℕ, b < 256 →
      from16PCMTo8PCM (from8PCMTo16PCM b) = b ∧
      from24PCMTo8PCM (from8PCMTo24PCM b) = b ∧
      fromFloat32To8PCM (from8PCMToFloat32 b) = b ∧
      fromFloat64To8PCM (from8PCMToFloat64 b) = b) ∧
    (∀ i : ℤ, -32768 ≤ i → i ≤ 32767 →
      from24PCMTo16PCM (from16PCMTo24PCM i) = i ∧
      fromFloat32To16PCM (from16PCMToFloat32 i) = i) :=
  ⟨c7_8bit, fun i hlo hhi => ⟨c7_24_16 i hlo hhi, c7_float32_16 i hlo hhi⟩⟩

theorem c7_witness :
    ((5 : ℕ) < 256 ∧ from16PCMTo8PCM (from8PCMTo16PCM 5) = 5 ∧
      from24PCMTo8PCM (from8PCMTo24PCM 5) = 5 ∧
      fromFloat32To8PCM (from8PCMToFloat32 5) = 5 ∧
      fromFloat64To8PCM (from8PCMToFloat64 5) = 5) ∧
    (-32768 ≤ (-12345 : ℤ) ∧ (-12345 : ℤ) ≤ 32767 ∧
      from24PCMTo16PCM (from16PCMTo24PCM (-12345)) = -12345 ∧
      fromFloat32To16PCM (from16PCMToFloat32 (-12345)) = -12345) :=
  ⟨⟨by norm_num, c7_sample_roundtrips_exact.1 5 (by norm_num)⟩,
   by norm_num, by norm_num,
   (c7_sample_roundtrips_exact.2 (-12345) (by norm_num) (by norm_num)).1,
   (c7_sample_roundtrips_exact.2 (-12345) (by norm_num) (by norm_num)).2⟩
